import Mathlib

/-! A shallow embedding of `src/tiff_reader.cpp` (strvworks/tiff_reader)

The C++ translation unit is embedded function by function.  Machine integers are
natural numbers reduced modulo `2^w` where the C++ type can wrap.  The process-wide
buffers of `tiff_pal` (scratch buffer, pixel-window pool, their locks) are an explicit
state value that every operation threads through.  A vector access outside its bounds
that the C++ code would *read* is undefined behaviour and is modelled by `none`.

The two headers `impls/tiff_reader.h` and `impls/tiff_pal.h` are not part of the
sources at hand.  What the translation unit uses from them is either a parameter
(`pal_config`, `helpers`, the default-constructed page) or a definition whose doc
comment starts with "Modelled from the spec".
-/

namespace tiff

/-! ## Bytes and integers in memory -/

/-- One octet of a file or of a buffer. -/
abbrev Byte := Fin 256

/-- Value of a byte sequence read least-significant byte first. -/
def leVal : List Byte → Nat
  | [] => 0
  | b :: bs => b.val + 256 * leVal bs

/-- Value of a byte sequence read most-significant byte first. -/
def beVal (bs : List Byte) : Nat := leVal bs.reverse

/-- The `n` low-order bytes of `v`, least-significant first. -/
def toLE : Nat → Nat → List Byte
  | 0, _ => []
  | n + 1, v => ⟨v % 256, Nat.mod_lt _ (by decide)⟩ :: toLE n (v / 256)

/-- Byte swap of an `n`-byte integer. -/
def byteswap (n v : Nat) : Nat := beVal (toLE n v)

/-- The `n` bytes of `buf` that start at `pos`; a position past the end of the model
buffer reads as zero. -/
def bytesAt (buf : List Byte) (pos n : Nat) : List Byte :=
  (List.range n).map (fun i => buf.getD (pos + i) 0)

/-! ## The platform layer `tiff_pal` -/

/-- Constants of `impls/tiff_pal.h` and of the host, taken as parameters. -/
structure pal_config where
  /-- result of `platform_is_big_endian()` -/
  platform_is_big_endian : Bool
  INFO_BUF_SIZE : Nat
  PIX_BUF_SIZE : Nat
  PIX_BUF_COUNT : Nat
deriving DecidableEq, Repr

/-- One element of `tiff_pal::pix_buffer_statics`. -/
structure pix_buffer_static where
  in_use : Bool
  strip : Nat
  start : Nat
  len : Nat
deriving DecidableEq, Repr

/-- The process-wide mutable state of `tiff_pal`: the scratch buffer, the pixel-window
pool with its bookkeeping, how many times each lock is currently held, and the handles
passed to `tiff_pal::fclose` so far. -/
structure pal_state where
  info_buffer : List Byte
  info_buffer_held : Nat
  pix_buffer : List (List Byte)
  pix_buffer_statics : List pix_buffer_static
  pix_buffer_held : Nat
  closed : List Int
deriving DecidableEq, Repr

/-- Modelled from the spec: `tiff_pal::info_buffer_lock` (the locking primitive of the
scratch buffer is a collaborator); an acquisition is counted. -/
def info_buffer_lock (w : pal_state) : pal_state :=
  { w with info_buffer_held := w.info_buffer_held + 1 }

/-- Modelled from the spec: `tiff_pal::info_buffer_unlock`; a release is counted. -/
def info_buffer_unlock (w : pal_state) : pal_state :=
  { w with info_buffer_held := w.info_buffer_held - 1 }

/-- Modelled from the spec: `tiff_pal::pix_buffer_lock`. -/
def pix_buffer_lock (w : pal_state) : pal_state :=
  { w with pix_buffer_held := w.pix_buffer_held + 1 }

/-- Modelled from the spec: `tiff_pal::pix_buffer_unlock`. -/
def pix_buffer_unlock (w : pal_state) : pal_state :=
  { w with pix_buffer_held := w.pix_buffer_held - 1 }

/-- Modelled from the spec: `tiff_pal::fclose` releases a handle. -/
def fclose (source : Int) (w : pal_state) : pal_state :=
  { w with closed := source :: w.closed }

/-- Modelled from the spec: `tiff_pal::fseek` followed by `tiff_pal::fread`, the
file-read collaborator `read(handle, buffer, size) -> bytes_read`.  The bytes of the
file from `pos` on, at most `size` of them, overwrite the start of `dest`; what the file
does not supply keeps its previous content. -/
def fread (content : List Byte) (pos size : Nat) (dest : List Byte) : List Byte :=
  let got := (content.drop pos).take size
  got ++ dest.drop got.length

/-! ## Binary field reader -/

/-- Modelled from the spec: `buffer_reader` of `impls/tiff_reader.h`, a cursor over a
byte buffer with a swap mode.  The buffer itself is the scratch buffer of the state and
is passed to each read. -/
structure buffer_reader where
  pos : Nat
  swap : Bool
deriving DecidableEq, Repr

/-- Modelled from the spec: `buffer_reader::read<T>` with `sizeof(T) = n`: the value of
the next `n` bytes in host order, byte-swapped if the swap mode is on; the cursor
advances by `n`. -/
def buffer_reader.read (cfg : pal_config) (n : Nat) (buf : List Byte) (br : buffer_reader) :
    Nat × buffer_reader :=
  let bs := bytesAt buf br.pos n
  let native := if cfg.platform_is_big_endian then beVal bs else leVal bs
  (if br.swap then byteswap n native else native, { br with pos := br.pos + n })

/-- Modelled from the spec: `buffer_reader::read_array`, `n` bytes verbatim. -/
def buffer_reader.read_array (n : Nat) (buf : List Byte) (br : buffer_reader) :
    List Byte × buffer_reader :=
  (bytesAt buf br.pos n, { br with pos := br.pos + n })

/-- Modelled from the spec: `buffer_reader::seek_top`, cursor back to offset 0. -/
def buffer_reader.seek_top (br : buffer_reader) : buffer_reader := { br with pos := 0 }

/-- Modelled from the spec: `buffer_reader::set_swap_mode`. -/
def buffer_reader.set_swap_mode (s : Bool) (br : buffer_reader) : buffer_reader :=
  { br with swap := s }

/-! ## Data model -/

inductive endian_t where
  | INVALID
  | BIG
  | LITTLE
deriving DecidableEq, Repr

/-- The 8-byte file header. -/
structure header where
  order : List Byte
  version : Nat
  offset : Nat
deriving DecidableEq, Repr

/-- One 12-byte record of a directory. -/
structure tag_entry where
  tag : Nat
  field_type : Nat
  field_count : Nat
  data_field : Nat
deriving DecidableEq, Repr

/-- An image file directory. -/
structure ifd where
  entry_count : Nat
  entries : List tag_entry
  next_ifd : Nat
deriving DecidableEq, Repr

/-- Four 8-bit channels. -/
structure color_t where
  r : Byte
  g : Byte
  b : Byte
  a : Byte
deriving DecidableEq, Repr

/-- Per-directory metadata.  Enumerations are kept as their 16-bit codes. -/
structure page where
  width : Nat
  height : Nat
  bit_per_samples : List Nat
  sample_per_pixel : Nat
  byte_per_pixel : Nat
  compression : Nat
  colorspace : Nat
  planar_configuration : Nat
  strip_offsets : List Nat
  strip_byte_counts : List Nat
  rows_per_strip : Nat
  color_palette : List Nat
  description : List Byte
  date_time : List Byte
  extra_sample_counts : Nat
  extra_sample_type : Nat
  buffer_id : Int
deriving DecidableEq, Repr

/-- The reader object.  `content` is the byte sequence behind the handle `source`. -/
structure reader where
  content : List Byte
  source : Int
  decoded : Bool
  h : header
  endi : endian_t
  need_swap : Bool
  ifds : List ifd
  pages : List page
deriving DecidableEq, Repr

/-- Function templates of `impls/tiff_reader.h` that the tag handlers call and whose
bodies are not at hand, and the member initialisers of `page`; they are parameters of
the embedding.
`read_scalar n` is `read_scalar<T>` with `sizeof(T) = n`;
`fread_array_buffering r n vec buf size ptr` reads the elements of `vec` (each `n` bytes
wide) from file position `ptr` through the staging buffer `buf` and gives the new
vector and the new buffer content. -/
structure helpers where
  read_scalar : Nat → reader → tag_entry → Nat
  read_scalar_generic : reader → tag_entry → Nat
  fread_array_buffering : reader → Nat → List Nat → List Byte → Nat → Nat → List Nat × List Byte
  /-- the field values of a default-constructed page -/
  fresh_page : page

/-! ### Enumerator codes

The enumerators are declared in `impls/tiff_reader.h`; their numeric codes are the ones
of the TIFF 6.0 baseline. -/

namespace tag_t
def NEW_SUBFILE_TYPE : Nat := 254
def IMAGE_WIDTH : Nat := 256
def IMAGE_LENGTH : Nat := 257
def BITS_PER_SAMPLE : Nat := 258
def COMPRESSION : Nat := 259
def PHOTOMETRIC_INTERPRETATION : Nat := 262
def IMAGE_DESCRIPTION : Nat := 270
def STRIP_OFFSETS : Nat := 273
def SAMPLES_PER_PIXEL : Nat := 277
def ROWS_PER_STRIP : Nat := 278
def STRIP_BYTE_COUNTS : Nat := 279
def X_RESOLUTION : Nat := 282
def Y_RESOLUTION : Nat := 283
def PLANAR_CONFIGURATION : Nat := 284
def RESOLUTION_UNIT : Nat := 296
def DATE_TIME : Nat := 306
def COLOR_MAP : Nat := 320
def EXTRA_SAMPLES : Nat := 338
end tag_t

namespace compression_t
def NONE : Nat := 1
def LZW : Nat := 5
end compression_t

namespace colorspace_t
def MINISWHITE : Nat := 0
def MINISBLACK : Nat := 1
def RGB : Nat := 2
def PALETTE : Nat := 3
def MASK : Nat := 4
def SEPARATED : Nat := 5
def YCBCR : Nat := 6
end colorspace_t

namespace planar_configuration_t
def CONTIG : Nat := 1
def SEPARATE : Nat := 2
end planar_configuration_t

/-! ## Page model -/

/-- Model of `std::vector::resize`: keep the first `n` elements, fill up with zeros. -/
def resize (v : List Nat) (n : Nat) : List Nat :=
  v.take n ++ List.replicate (n - v.length) 0

/-- Source `page::reserve_page_id`: the first slot of the pool that is not in use is marked
and its index returned; `-1` when every slot is taken. -/
def page.reserve_page_id (cfg : pal_config) (w : pal_state) : Int × pal_state :=
  match (w.pix_buffer_statics.take cfg.PIX_BUF_COUNT).findIdx? (fun s => !s.in_use) with
  | some i =>
    match w.pix_buffer_statics[i]? with
    | some s =>
      ((i : Int), { w with pix_buffer_statics := w.pix_buffer_statics.set i { s with in_use := true } })
    | none => (-1, w)
  | none => (-1, w)

/-- Conversion `static_cast<int32_t>` of an unsigned value: reduction modulo `2^32` into
the range `-2^31 .. 2^31 - 1`. -/
def static_cast_int32 (n : Nat) : Int :=
  (((n + 2147483648) % 4294967296 : Nat) : Int) - 2147483648

/-- Source `page::release_page_id`: an `id` at or above `PIX_BUF_COUNT` returns at once;
every other `id`, the negative ones included, goes on to the store
`pix_buffer_statics[id].in_use = false`.  A store to an element outside the array is
undefined behaviour (`none`). -/
def page.release_page_id (cfg : pal_config) (id : Int) (w : pal_state) : Option pal_state :=
  if id ≥ static_cast_int32 cfg.PIX_BUF_COUNT then some w
  else if 0 ≤ id then
    match w.pix_buffer_statics[id.toNat]? with
    | some s =>
      some { w with pix_buffer_statics := w.pix_buffer_statics.set id.toNat { s with in_use := false } }
    | none => none
  else none

/-- Source `page::calc_byte_per_pixel`.  The accumulator `total_bits` is a `uint16_t`, the
result a `uint8_t`.  The product `sample_per_pixel * bit_per_samples[0]` is formed in
`int`; it is exact here (two 16-bit factors overflow `int` only beyond `2^31`, which is
undefined behaviour in C++). -/
def page.calc_byte_per_pixel (sample_per_pixel : Nat) (bit_per_samples : List Nat) : Nat :=
  if bit_per_samples.length ≠ sample_per_pixel ∧ bit_per_samples.length ≥ 1 then
    ((sample_per_pixel * bit_per_samples.headD 0) / 8) % 256
  else
    let total_bits := bit_per_samples.foldl (fun t b => (t + b) % 65536) 0
    if total_bits % 8 ≠ 0 then 0 else (total_bits / 8) % 256

/-- The `while` loop of `page::validate_bit_per_samples`, `k` passes of
`bit_per_samples.push_back(bit_per_samples[0])`.  Reading element 0 of an empty vector
is undefined behaviour (`none`). -/
def page.validate_loop : Nat → List Nat → Option (List Nat)
  | 0, bit_per_samples => some bit_per_samples
  | k + 1, bit_per_samples =>
    match bit_per_samples.head? with
    | none => none
    | some b => page.validate_loop k (bit_per_samples ++ [b])

/-- Source `page::validate_bit_per_samples`: `while (size() < sample_per_pixel) push_back(
bit_per_samples[0])`.  Every pass adds one element, so the loop makes exactly
`sample_per_pixel - size()` passes (none when the vector is already as long).  The
function's own result is the constant `true`; the model gives the vector. -/
def page.validate_bit_per_samples (sample_per_pixel : Nat) (bit_per_samples : List Nat) :
    Option (List Nat) :=
  page.validate_loop (sample_per_pixel - bit_per_samples.length) bit_per_samples

/-- Modelled from the spec: `page::validate` of `impls/tiff_reader.h`, "a validation
pass pads `bit_per_samples` to length `samples_per_pixel` (repeating the first element)
and computes `bytes_per_pixel`". -/
def page.validate (p : page) : Option page :=
  match page.validate_bit_per_samples p.sample_per_pixel p.bit_per_samples with
  | none => none
  | some bps =>
    some { p with bit_per_samples := bps,
                  byte_per_pixel := page.calc_byte_per_pixel p.sample_per_pixel bps }

/-- Modelled from the spec: the constructor `page(reader)` of `impls/tiff_reader.h`,
"each Page optionally reserves one slot from a process-wide fixed pool of buffer slots
at construction; if reservation fails the page falls back to direct reads". -/
def page.ctor (cfg : pal_config) (hp : helpers) (w : pal_state) : page × pal_state :=
  let res := page.reserve_page_id cfg w
  ({ hp.fresh_page with buffer_id := res.1 }, res.2)

/-! ## Header -/

/-- Source `reader::check_endian_type`: `"MM"` is big, `"II"` is little. -/
def reader.check_endian_type (s : List Byte) : endian_t :=
  if s.take 2 = [0x4D, 0x4D] then endian_t.BIG
  else if s.take 2 = [0x49, 0x49] then endian_t.LITTLE
  else endian_t.INVALID

/-- Source `reader::fread_pos` into the scratch buffer. -/
def reader.fread_pos_info (r : reader) (pos size : Nat) (w : pal_state) : pal_state :=
  { w with info_buffer := fread r.content pos size w.info_buffer }

def reader.is_big_endian (r : reader) : Bool := r.endi = endian_t.BIG

def reader.is_little_endian (r : reader) : Bool := r.endi = endian_t.LITTLE

/-- Source `reader::is_valid`: `source && decoded`. -/
def reader.is_valid (r : reader) : Bool := (r.source != 0) && r.decoded

/-- Source `reader::read_header`.  The early `return false` on an invalid magic leaves the
function before `info_buffer_unlock`. -/
def reader.read_header (cfg : pal_config) (r : reader) (w : pal_state) :
    Bool × reader × pal_state :=
  let w1 := r.fread_pos_info 0 8 (info_buffer_lock w)
  let br : buffer_reader := { pos := 0, swap := false }
  let o := br.read_array 2 w1.info_buffer
  let r1 := { r with h := { r.h with order := o.1 } }
  let t := reader.check_endian_type o.1
  if t = endian_t.INVALID then (false, r1, w1)
  else
    let r2 := { r1 with endi := t }
    let r3 := { r2 with need_swap := cfg.platform_is_big_endian != r2.is_big_endian }
    let br1 := o.2.set_swap_mode r3.need_swap
    let v := br1.read cfg 2 w1.info_buffer
    let off := v.2.read cfg 4 w1.info_buffer
    let r4 := { r3 with h := { r3.h with version := v.1, offset := off.1 } }
    let w2 := info_buffer_unlock w1
    if r4.h.version ≠ 42 then (false, r4, w2) else (true, r4, w2)

/-! ## Directory -/

/-- The body of the `for` loop of `reader::fetch_ifds`, for the entries `i, i+1, ...`
(`k` of them): 12 bytes are fetched to the scratch buffer, the cursor goes back to the
top and the four fields are read. -/
def reader.fetch_entries (cfg : pal_config) (r : reader) :
    Nat → Nat → buffer_reader → pal_state → List tag_entry × buffer_reader × pal_state
  | 0, _, br, w => ([], br, w)
  | k + 1, i, br, w =>
    let w1 := r.fread_pos_info (r.h.offset + 2 + i * 12) 12 w
    let t := br.seek_top.read cfg 2 w1.info_buffer
    let ft := t.2.read cfg 2 w1.info_buffer
    let fc := ft.2.read cfg 4 w1.info_buffer
    let df := fc.2.read cfg 4 w1.info_buffer
    let rest := reader.fetch_entries cfg r k (i + 1) df.2 w1
    ({ tag := t.1, field_type := ft.1, field_count := fc.1, data_field := df.1 } :: rest.1,
      rest.2.1, rest.2.2)

/-- Source `reader::fetch_ifds`: exactly one directory.  The last `fread_pos` fetches four
bytes from `h.offset` again and `next_ifd` is read where the cursor stands. -/
def reader.fetch_ifds (cfg : pal_config) (r : reader) (w : pal_state) : List ifd × pal_state :=
  let w0 := info_buffer_lock w
  let br : buffer_reader := { pos := 0, swap := r.need_swap }
  let w1 := r.fread_pos_info r.h.offset 2 w0
  let c := br.read cfg 2 w1.info_buffer
  let es := reader.fetch_entries cfg r c.1 0 c.2 w1
  let w2 := r.fread_pos_info r.h.offset 4 es.2.2
  let n := es.2.1.read cfg 4 w2.info_buffer
  ([{ entry_count := c.1, entries := es.1, next_ifd := n.1 }], info_buffer_unlock w2)

/-! ## Tag handlers -/

/-- Signature of a tag handler: `bool (const reader&, const tag_entry&, page&)` over
the state of the platform layer. -/
abbrev handler := reader → tag_entry → page → pal_state → Bool × page × pal_state

/-- Call `read_scalar<uint16_t>(r, e)`: the result type keeps 16 bits. -/
def read_u16 (hp : helpers) (r : reader) (e : tag_entry) : Nat := hp.read_scalar 2 r e % 65536

/-- Call `read_scalar<uint32_t>(r, e)`: the result type keeps 32 bits. -/
def read_u32 (hp : helpers) (r : reader) (e : tag_entry) : Nat := hp.read_scalar 4 r e % 4294967296

/-- Narrowing of a vector element to `uint8_t`. -/
def toByte (x : Nat) : Byte := ⟨x % 256, Nat.mod_lt _ (by decide)⟩

/-- The locked call `r.fread_array_buffering(vec, tiff_pal::info_buffer,
tiff_pal::INFO_BUF_SIZE, ptr)` that several handlers share. -/
def locked_fread_array (cfg : pal_config) (hp : helpers) (r : reader) (elem : Nat)
    (vec : List Nat) (ptr : Nat) (w : pal_state) : List Nat × pal_state :=
  let w1 := info_buffer_lock w
  let res := hp.fread_array_buffering r elem vec w1.info_buffer cfg.INFO_BUF_SIZE ptr
  (res.1, info_buffer_unlock { w1 with info_buffer := res.2 })

namespace tag_manager

def image_width (hp : helpers) : handler := fun r e p w =>
  (true, { p with width := hp.read_scalar_generic r e }, w)

def image_length (hp : helpers) : handler := fun r e p w =>
  (true, { p with height := hp.read_scalar_generic r e }, w)

def bits_per_sample (cfg : pal_config) (hp : helpers) : handler := fun r e p w =>
  if e.data_field = 0 then (false, p, w)
  else if e.field_count * 2 > 4 then
    let res := locked_fread_array cfg hp r 2 (resize p.bit_per_samples e.field_count)
      (read_u32 hp r e) w
    (true, { p with bit_per_samples := res.1 }, res.2)
  else
    (true, { p with bit_per_samples := (resize p.bit_per_samples 1).set 0 (read_u16 hp r e) }, w)

def compression (hp : helpers) : handler := fun r e p w =>
  let c := read_u16 hp r e
  if c ≠ compression_t.NONE then (false, p, w)
  else (true, { p with compression := c }, w)

def photometric_interpretation (hp : helpers) : handler := fun r e p w =>
  let p1 := { p with colorspace := read_u16 hp r e }
  if p1.colorspace = colorspace_t.MINISBLACK ∨ p1.colorspace = colorspace_t.MINISWHITE
      ∨ p1.colorspace = colorspace_t.RGB ∨ p1.colorspace = colorspace_t.PALETTE
      ∨ p1.colorspace = colorspace_t.MASK then (true, p1, w)
  else (false, p1, w)

/-- Handler `strip_offsets`.  With `field_count = 0` the vector is resized to no element and
the store to element 0 lands outside of it; the vector itself stays empty. -/
def strip_offsets (cfg : pal_config) (hp : helpers) : handler := fun r e p w =>
  if e.data_field = 0 then (false, p, w)
  else
    let v := resize p.strip_offsets e.field_count
    if e.field_count ≥ 2 then
      let res := locked_fread_array cfg hp r 4 v (read_u32 hp r e) w
      (true, { p with strip_offsets := res.1 }, res.2)
    else (true, { p with strip_offsets := v.set 0 (read_u32 hp r e) }, w)

def rows_per_strip (hp : helpers) : handler := fun r e p w =>
  (true, { p with rows_per_strip := hp.read_scalar_generic r e }, w)

/-- Handler `strip_byte_counts`, the same shape as `strip_offsets`. -/
def strip_byte_counts (cfg : pal_config) (hp : helpers) : handler := fun r e p w =>
  if e.data_field = 0 then (false, p, w)
  else
    let v := resize p.strip_byte_counts e.field_count
    if e.field_count ≥ 2 then
      let res := locked_fread_array cfg hp r 4 v (read_u32 hp r e) w
      (true, { p with strip_byte_counts := res.1 }, res.2)
    else (true, { p with strip_byte_counts := v.set 0 (read_u32 hp r e) }, w)

def x_resolution : handler := fun _ _ p w => (true, p, w)

def y_resolution : handler := fun _ _ p w => (true, p, w)

def planar_configuration (hp : helpers) : handler := fun r e p w =>
  let p1 := { p with planar_configuration := read_u16 hp r e }
  if p1.planar_configuration ≠ planar_configuration_t.CONTIG then (false, p1, w)
  else (true, p1, w)

def resolution_unit : handler := fun _ _ p w => (true, p, w)

def color_map (cfg : pal_config) (hp : helpers) : handler := fun r e p w =>
  if e.field_count = 0 then (true, p, w)
  else
    let ptr := read_u32 hp r e
    if ptr = 0 then (false, p, w)
    else
      let res := locked_fread_array cfg hp r 2 (resize p.color_palette e.field_count) ptr w
      (true, { p with color_palette := res.1 }, res.2)

/-- Handler `image_description`.  The inline branch builds a `std::string` from the bytes of
the 32-bit scalar as they lie in host memory, up to the first NUL, and keeps at most
`field_count - 1` of them (a scalar without a NUL byte makes the C++ code read past
the scalar; the model stops after its four bytes). -/
def image_description (cfg : pal_config) (hp : helpers) : handler := fun r e p w =>
  if e.field_count = 0 then (true, p, w)
  else if e.field_count ≤ 4 then
    let le := toLE 4 (read_u32 hp r e)
    let mem := if cfg.platform_is_big_endian then le.reverse else le
    (true, { p with description := (mem.takeWhile (fun b => b ≠ 0)).take (e.field_count - 1) }, w)
  else
    let res := locked_fread_array cfg hp r 1 (List.replicate e.field_count 0) (read_u32 hp r e) w
    (true, { p with description := (res.1.take (res.1.length - 1)).map toByte }, res.2)

def samples_per_pixel (hp : helpers) : handler := fun r e p w =>
  (true, { p with sample_per_pixel := hp.read_scalar_generic r e }, w)

def date_time (cfg : pal_config) (hp : helpers) : handler := fun r e p w =>
  if e.field_count ≠ 20 then (false, p, w)
  else
    let res := locked_fread_array cfg hp r 1 (List.replicate 20 0) (read_u32 hp r e) w
    (true, { p with date_time := (res.1.take (res.1.length - 1)).map toByte }, res.2)

def extra_samples (hp : helpers) : handler := fun r e p w =>
  (true, { p with extra_sample_counts := e.field_count, extra_sample_type := read_u16 hp r e }, w)

end tag_manager

/-- Source `reader::tag_procs`: the dispatch table, tag id to handler. -/
def reader.tag_procs (cfg : pal_config) (hp : helpers) (tag : Nat) : Option handler :=
  if tag = tag_t.IMAGE_WIDTH then some (tag_manager.image_width hp)
  else if tag = tag_t.IMAGE_LENGTH then some (tag_manager.image_length hp)
  else if tag = tag_t.BITS_PER_SAMPLE then some (tag_manager.bits_per_sample cfg hp)
  else if tag = tag_t.COMPRESSION then some (tag_manager.compression hp)
  else if tag = tag_t.PHOTOMETRIC_INTERPRETATION then
    some (tag_manager.photometric_interpretation hp)
  else if tag = tag_t.STRIP_OFFSETS then some (tag_manager.strip_offsets cfg hp)
  else if tag = tag_t.ROWS_PER_STRIP then some (tag_manager.rows_per_strip hp)
  else if tag = tag_t.STRIP_BYTE_COUNTS then some (tag_manager.strip_byte_counts cfg hp)
  else if tag = tag_t.X_RESOLUTION then some tag_manager.x_resolution
  else if tag = tag_t.Y_RESOLUTION then some tag_manager.y_resolution
  else if tag = tag_t.PLANAR_CONFIGURATION then some (tag_manager.planar_configuration hp)
  else if tag = tag_t.RESOLUTION_UNIT then some tag_manager.resolution_unit
  else if tag = tag_t.COLOR_MAP then some (tag_manager.color_map cfg hp)
  else if tag = tag_t.IMAGE_DESCRIPTION then some (tag_manager.image_description cfg hp)
  else if tag = tag_t.SAMPLES_PER_PIXEL then some (tag_manager.samples_per_pixel hp)
  else if tag = tag_t.DATE_TIME then some (tag_manager.date_time cfg hp)
  else if tag = tag_t.EXTRA_SAMPLES then some (tag_manager.extra_samples hp)
  else none

/-! ## Decoding -/

/-- The inner loop of `reader::read_entry_tags` over the entries of one directory,
working on `pages[page_index]`.  A handler that fails ends the whole function with
`false`; an entry without handler is passed over.  `none`: `pages[page_index]` does not
exist when a handler needs it. -/
def reader.read_entries (cfg : pal_config) (hp : helpers) (r : reader) (page_index : Nat) :
    List tag_entry → List page → pal_state → Option (Bool × List page × pal_state)
  | [], pages, w => some (true, pages, w)
  | e :: es, pages, w =>
    match reader.tag_procs cfg hp e.tag with
    | none => reader.read_entries cfg hp r page_index es pages w
    | some f =>
      match pages[page_index]? with
      | none => none
      | some p =>
        let res := f r e p w
        if res.1 then
          reader.read_entries cfg hp r page_index es (pages.set page_index res.2.1) res.2.2
        else some (false, pages.set page_index res.2.1, res.2.2)

/-- The outer loop of `reader::read_entry_tags` over the directories. -/
def reader.read_ifds (cfg : pal_config) (hp : helpers) (r : reader) :
    List ifd → Nat → List page → pal_state → Option (Bool × List page × pal_state)
  | [], _, pages, w => some (true, pages, w)
  | d :: ds, page_index, pages, w =>
    match reader.read_entries cfg hp r page_index d.entries pages w with
    | none => none
    | some (true, pages1, w1) => reader.read_ifds cfg hp r ds (page_index + 1) pages1 w1
    | some (false, pages1, w1) => some (false, pages1, w1)

/-- Call `page.validate()` for every page, in order. -/
def validate_pages : List page → Option (List page)
  | [] => some []
  | p :: ps =>
    match p.validate with
    | none => none
    | some p1 =>
      match validate_pages ps with
      | none => none
      | some ps1 => some (p1 :: ps1)

/-- Source `reader::read_entry_tags`: both loops, then the validation of every page. -/
def reader.read_entry_tags (cfg : pal_config) (hp : helpers) (r : reader)
    (ifds : List ifd) (pages : List page) (w : pal_state) :
    Option (Bool × List page × pal_state) :=
  match reader.read_ifds cfg hp r ifds 0 pages w with
  | none => none
  | some (false, pages1, w1) => some (false, pages1, w1)
  | some (true, pages1, w1) =>
    match validate_pages pages1 with
    | none => none
    | some pages2 => some (true, pages2, w1)

/-- The loop of `reader::decode` that pushes one `page(*this)` per directory. -/
def reader.push_pages (cfg : pal_config) (hp : helpers) :
    Nat → List page → pal_state → List page × pal_state
  | 0, pages, w => (pages, w)
  | k + 1, pages, w =>
    let res := page.ctor cfg hp w
    reader.push_pages cfg hp k (pages ++ [res.1]) res.2

/-- The first half of `reader::decode`: `fetch_ifds(ifds)` and one pushed page per
directory; the result is the reader and the state that `read_entry_tags` starts from. -/
def reader.decode_prep (cfg : pal_config) (hp : helpers) (r : reader) (w : pal_state) :
    reader × pal_state :=
  let f := r.fetch_ifds cfg w
  let r1 := { r with ifds := f.1 }
  let ps := reader.push_pages cfg hp r1.ifds.length r1.pages f.2
  ({ r1 with pages := ps.1 }, ps.2)

/-- Source `reader::decode`. -/
def reader.decode (cfg : pal_config) (hp : helpers) (r : reader) (w : pal_state) :
    Option (Bool × reader × pal_state) :=
  let pr := reader.decode_prep cfg hp r w
  match reader.read_entry_tags cfg hp pr.1 pr.1.ifds pr.1.pages pr.2 with
  | none => none
  | some (false, pages1, w1) => some (false, { pr.1 with pages := pages1 }, w1)
  | some (true, pages1, w1) => some (true, { pr.1 with pages := pages1, decoded := true }, w1)

/-- Modelled from the spec: the member initialisers of `reader` in
`impls/tiff_reader.h`; a reader starts undecoded, with unresolved endianness and without
directories or pages.  `handle` and `content` are what `tiff_pal::fopen` gave. -/
def reader.init (handle : Int) (content : List Byte) : reader :=
  { content := content, source := handle, decoded := false,
    h := { order := [], version := 0, offset := 0 },
    endi := endian_t.INVALID, need_swap := false, ifds := [], pages := [] }

/-- The constructor `reader::reader(path)`, given the result of `tiff_pal::fopen`. -/
def reader.ctor (cfg : pal_config) (hp : helpers) (handle : Int) (content : List Byte)
    (w : pal_state) : Option (reader × pal_state) :=
  let r := reader.init handle content
  if r.source ≤ 0 then some (r, w)
  else
    let hd := r.read_header cfg w
    if !hd.1 then some ({ hd.2.1 with source := 0 }, fclose hd.2.1.source hd.2.2)
    else
      match hd.2.1.decode cfg hp hd.2.2 with
      | none => none
      | some (_, r1, w1) => some (r1, w1)

/-- Source `reader::open(path)` returns `reader(path)`. -/
def reader.open_ (cfg : pal_config) (hp : helpers) (handle : Int) (content : List Byte)
    (w : pal_state) : Option (reader × pal_state) :=
  reader.ctor cfg hp handle content w

/-- Source `reader::~reader`: the handle is closed only when the reader is valid. -/
def reader.dtor (r : reader) (w : pal_state) : pal_state :=
  if r.is_valid then fclose r.source w else w

/-! ## Pixel fetch engine -/

/-- The flat byte pointer `uint32_t ptr = (y*width + x) * byte_per_pixel`, reduced to
32 bits.  `x` and `y` are the 16-bit arguments of the accessors. -/
def page.flat_ptr (p : page) (x y : Nat) : Nat :=
  ((y * p.width + x) * p.byte_per_pixel) % 4294967296

/-- The strip scan shared by `get_pixels`, `get_pixel` and
`get_pixel_without_buffering`: the range `for` over `strip_byte_counts` with the
`uint16_t target_strip` and the `uint32_t total_byte`, started in the state
`(target_strip, total_byte)`; the result is the state at the `break` or at the end of
the vector. -/
def page.strip_scan (ptr : Nat) : List Nat → Nat → Nat → Nat × Nat
  | [], target_strip, total_byte => (target_strip, total_byte)
  | s :: ss, target_strip, total_byte =>
    if (total_byte + s) % 4294967296 > ptr then (target_strip, total_byte)
    else page.strip_scan ptr ss ((target_strip + 1) % 65536) ((total_byte + s) % 4294967296)

/-- The strip lookup at the start of every accessor: the scan from
`target_strip = 0`, `total_byte = 0`, then `ptr -= total_byte` (a 32-bit subtraction).
The result is the target strip and the rebased pointer. -/
def page.strip_lookup (ptr : Nat) (strip_byte_counts : List Nat) : Nat × Nat :=
  let sc := page.strip_scan ptr strip_byte_counts 0 0
  (sc.1, (ptr + 4294967296 - sc.2) % 4294967296)

/-- The lookup for the pixel `(x, y)` of a page. -/
def page.locate (p : page) (x y : Nat) : Nat × Nat :=
  page.strip_lookup (p.flat_ptr x y) p.strip_byte_counts

/-- Bit `i` of a buffer, bits numbered from the most significant bit of byte 0. -/
def bitAt (buf : List Byte) (i : Nat) : Nat :=
  ((buf.getD (i / 8) 0).val / 2 ^ (7 - i % 8)) % 2

/-- Modelled from the spec: `extract_memory<uint8_t>` of `impls/tiff_reader.h`,
"reading an N-bit unsigned value from an arbitrary bit offset within a byte buffer",
each sample "a big-endian bitfield of its declared width"; the result type keeps the
low 8 bits. -/
def extract_memory (buf : List Byte) (start_pos bit_length : Nat) : Byte :=
  toByte ((List.range bit_length).foldl (fun acc i => 2 * acc + bitAt buf (start_pos + i)) 0)

/-- Modelled from the spec: a default-constructed `color_t` ("zero-initialized"). -/
def color_t.zero : color_t := { r := 0, g := 0, b := 0, a := 0 }

/-- The store `*c_u8[p] = v` with `c_u8 = {&c.r, &c.g, &c.b, &c.a}`; an index beyond the
four pointers is undefined behaviour. -/
def color_t.set_channel (c : color_t) (p : Nat) (v : Byte) : Option color_t :=
  match p with
  | 0 => some { c with r := v }
  | 1 => some { c with g := v }
  | 2 => some { c with b := v }
  | 3 => some { c with a := v }
  | _ => none

/-- The loop `for (auto& b: bit_per_samples) { *c_u8[p++] = extract_memory(buf,
start_pos, b); start_pos += b; }` with its `uint8_t` counters. -/
def unpack_samples (buf : List Byte) : List Nat → Nat → Nat → color_t → Option color_t
  | [], _, _, c => some c
  | b :: bs, p, start_pos, c =>
    match c.set_channel p (extract_memory buf start_pos b) with
    | none => none
    | some c1 => unpack_samples buf bs ((p + 1) % 256) ((start_pos + b) % 256) c1

/-- The bytes of a `color_t` as they lie in memory. -/
def color_t.bytes (c : color_t) : List Byte := [c.r, c.g, c.b, c.a]

/-- An array of `color_t` read back from its bytes. -/
def colors_of_bytes : List Byte → List color_t
  | r :: g :: b :: a :: rest => { r := r, g := g, b := b, a := a } :: colors_of_bytes rest
  | _ => []

/-- The per-pixel loop of the 2-sample path of `get_pixels`, pixels `i, i+1, ...`
(`k` of them); `base` is `strip_offsets[target_strip] + ptr`, `none` when the target
strip is not an index of `strip_offsets` (the loop body is the only place that reads
it). -/
def page.get_pixels_gray_alpha (content : List Byte) (p : page) (base : Option Nat) :
    Nat → Nat → List color_t → pal_state → Option (List color_t × pal_state)
  | 0, _, pixs, w => some (pixs, w)
  | k + 1, i, pixs, w =>
    match base, p.bit_per_samples.head?, pixs[i]? with
    | some bs, some b0, some _ =>
      let fetched := fread content (bs + i * p.byte_per_pixel) p.byte_per_pixel w.info_buffer
      let w1 := { w with info_buffer := fetched }
      let g := extract_memory w1.info_buffer 0 b0
      let a := extract_memory w1.info_buffer b0 b0
      page.get_pixels_gray_alpha content p base k (i + 1)
        (pixs.set i { r := g, g := g, b := g, a := a }) w1
    | _, _, _ => none

/-- The per-pixel loop of the general path of `get_pixels`. -/
def page.get_pixels_general (content : List Byte) (p : page) (base : Option Nat) :
    Nat → Nat → List color_t → pal_state → Option (List color_t × pal_state)
  | 0, _, pixs, w => some (pixs, w)
  | k + 1, i, pixs, w =>
    match base, pixs[i]? with
    | some bs, some c =>
      let fetched := fread content (bs + i * p.byte_per_pixel) p.byte_per_pixel w.info_buffer
      let w1 := { w with info_buffer := fetched }
      match unpack_samples w1.info_buffer p.bit_per_samples 0 0 c with
      | none => none
      | some c1 => page.get_pixels_general content p base k (i + 1) (pixs.set i c1) w1
    | _, _ => none

/-- Source `page::get_pixels(x, y, l, pixs)`: the count returned, the output array and
the state afterwards.  `content` is the file of the owning reader.  `none`: an access
outside `strip_offsets`, `bit_per_samples`, `pixs` or the four channel pointers. -/
def page.get_pixels (content : List Byte) (p : page) (x y l : Nat) (pixs : List color_t)
    (w : pal_state) : Option (Nat × List color_t × pal_state) :=
  let loc := p.locate x y
  let base := (p.strip_offsets[loc.1]?).map (fun off => (off + loc.2) % 4294967296)
  if p.bit_per_samples = [8, 8, 8, 8] ∧ p.sample_per_pixel = 4
      ∧ p.colorspace = colorspace_t.RGB then
    match base with
    | none => none
    | some bs =>
      if pixs.length < l then none
      else some (l, colors_of_bytes (fread content bs (4 * l) (pixs.flatMap color_t.bytes)), w)
  else if p.sample_per_pixel = 2 ∧ p.colorspace = colorspace_t.MINISBLACK then
    match page.get_pixels_gray_alpha content p base l 0 pixs (info_buffer_lock w) with
    | none => none
    | some (pixs1, w1) => some (l, pixs1, info_buffer_unlock w1)
  else
    match page.get_pixels_general content p base l 0 pixs (info_buffer_lock w) with
    | none => none
    | some (pixs1, w1) => some (l, pixs1, info_buffer_unlock w1)

/-- Source `page::get_pixel_without_buffering(x, y)`. -/
def page.get_pixel_without_buffering (content : List Byte) (p : page) (x y : Nat)
    (w : pal_state) : Option (color_t × pal_state) :=
  let loc := p.locate x y
  match p.strip_offsets[loc.1]? with
  | none => none
  | some off =>
    let w1 := info_buffer_lock w
    let fetched := fread content ((off + loc.2) % 4294967296) p.byte_per_pixel w1.info_buffer
    let w2 := { w1 with info_buffer := fetched }
    match unpack_samples w2.info_buffer p.bit_per_samples 0 0 color_t.zero with
    | none => none
    | some c => some (c, info_buffer_unlock w2)

/-- Source `page::get_pixel(x, y)`: the single-pixel fetch through the window of slot
`buffer_id`.  On a hit the pixel is unpacked from the cached window at
`ptr - start`; on a miss `min(PIX_BUF_SIZE, strip_byte_counts[target_strip] - ptr)`
bytes are fetched to the start of the window and the slot is rewritten. -/
def page.get_pixel (cfg : pal_config) (content : List Byte) (p : page) (x y : Nat)
    (w : pal_state) : Option (color_t × pal_state) :=
  if p.buffer_id = -1 then p.get_pixel_without_buffering content x y w
  else
    let loc := p.locate x y
    let w1 := pix_buffer_lock w
    let id := p.buffer_id.toNat
    if p.buffer_id < 0 then none
    else
      match w1.pix_buffer_statics[id]?, w1.pix_buffer[id]? with
      | some st, some buf =>
        if st.strip = loc.1 ∧ st.start ≤ loc.2 ∧ st.start + st.len > loc.2 then
          match unpack_samples (buf.drop (loc.2 - st.start)) p.bit_per_samples 0 0
              color_t.zero with
          | none => none
          | some c => some (c, pix_buffer_unlock w1)
        else
          match p.strip_byte_counts[loc.1]?, p.strip_offsets[loc.1]? with
          | some cnt, some off =>
            let remain := (cnt + 4294967296 - loc.2) % 4294967296
            let size := if cfg.PIX_BUF_SIZE > remain then remain else cfg.PIX_BUF_SIZE
            let buf1 := fread content ((off + loc.2) % 4294967296) size buf
            let w2 := { w1 with
              pix_buffer := w1.pix_buffer.set id buf1,
              pix_buffer_statics :=
                w1.pix_buffer_statics.set id { st with strip := loc.1, start := loc.2, len := size } }
            match unpack_samples buf1 p.bit_per_samples 0 0 color_t.zero with
            | none => none
            | some c => some (c, pix_buffer_unlock w2)
          | _, _ => none
      | _, _ => none

/-! ## Vocabulary of the statements -/

/-- The version field of a file as its magic declares it: bytes 2 and 3, most
significant first after `"MM"`, least significant first otherwise. -/
def file_version (content : List Byte) : Nat :=
  if content.take 2 = [0x4D, 0x4D] then beVal ((content.drop 2).take 2)
  else leVal ((content.drop 2).take 2)

/-- The reader and the state at the moment `reader::reader` hands the first directory
of a file to `read_entry_tags`: after `read_header` and the first half of `decode`. -/
def reader.at_decode (cfg : pal_config) (hp : helpers) (handle : Int) (content : List Byte)
    (w : pal_state) : reader × pal_state :=
  let hd := (reader.init handle content).read_header cfg w
  reader.decode_prep cfg hp hd.2.1 hd.2.2

/-- The entries of the first directory of a file, as `fetch_ifds` delivers them to
`read_entry_tags`. -/
def reader.first_entries (cfg : pal_config) (hp : helpers) (handle : Int) (content : List Byte)
    (w : pal_state) : List tag_entry :=
  match (reader.at_decode cfg hp handle content w).1.ifds with
  | [] => []
  | d :: _ => d.entries

/-- The list on the right is the list on the left with entries inserted, at any
positions, whose tag id has no handler in the dispatch table. -/
inductive inserted_unknown (cfg : pal_config) (hp : helpers) :
    List tag_entry → List tag_entry → Prop where
  | done : inserted_unknown cfg hp [] []
  | keep (e : tag_entry) {es es2 : List tag_entry} :
      inserted_unknown cfg hp es es2 → inserted_unknown cfg hp (e :: es) (e :: es2)
  | ins (e : tag_entry) {es es2 : List tag_entry} :
      reader.tag_procs cfg hp e.tag = none →
      inserted_unknown cfg hp es es2 → inserted_unknown cfg hp es (e :: es2)

/-- The reference definition of C8, in the words of the spec: "samples × first depth
÷ 8" when the length of the depth list differs from the sample count, otherwise the sum
of the depths ÷ 8 when that sum is a multiple of 8, and 0 when it is not.  Exact
arithmetic, no machine types. -/
def calc_byte_per_pixel_reference (n : Nat) (depths : List Nat) : Nat :=
  if depths.length ≠ n then (n * depths.headD 0) / 8
  else if depths.sum % 8 = 0 then depths.sum / 8
  else 0

/-- Index `i` is the least index of `counts` at which the running total
`counts[0] + ... + counts[i]` exceeds `ptr`. -/
def is_target_strip (counts : List Nat) (ptr i : Nat) : Prop :=
  i < counts.length ∧ ptr < (counts.take (i + 1)).sum
    ∧ ∀ j, j < i → (counts.take (j + 1)).sum ≤ ptr

/-- The window of a slot is a copy of the file range that the slot records: byte `j` of
the window is the file byte at `strip_offsets[strip] + start + j`, for every `j` below
the recorded length. -/
def window_holds (content : List Byte) (p : page) (st : pix_buffer_static) (buf : List Byte) :
    Prop :=
  ∀ j, j < st.len →
    buf.getD j 0 = content.getD ((p.strip_offsets.getD st.strip 0 + st.start) % 4294967296 + j) 0

/-- The colour whose four channels are the four file bytes from `base` on. -/
def color_at (content : List Byte) (base : Nat) : color_t :=
  { r := content.getD base 0, g := content.getD (base + 1) 0,
    b := content.getD (base + 2) 0, a := content.getD (base + 3) 0 }

/-- A page of 2 × 1 pixels, four samples of 8 bits, RGB, one strip at file offset 8
with the given byte count, holding the pixel-window slot `buffer_id`. -/
def rgba_page (strip_byte_count : Nat) (buffer_id : Int) : page :=
  { width := 2, height := 1, bit_per_samples := [8, 8, 8, 8], sample_per_pixel := 4,
    byte_per_pixel := 4, compression := 1, colorspace := 2, planar_configuration := 1,
    strip_offsets := [8], strip_byte_counts := [strip_byte_count], rows_per_strip := 1,
    color_palette := [], description := [], date_time := [], extra_sample_counts := 0,
    extra_sample_type := 0, buffer_id := buffer_id }

/-- Sixteen bytes: eight bytes of header and the two pixels `(10,20,30,40)` and
`(50,60,70,80)` at offset 8. -/
def rgba_file : List Byte :=
  [0x49, 0x49, 42, 0, 0, 0, 0, 0, 10, 20, 30, 40, 50, 60, 70, 80]

/-- Modelled from the spec: an instance of the helper templates for little-endian
files, used to evaluate the embedding on concrete files.  A scalar is "read inline"
from the value slot (its `n` low-order bytes); an out-of-line array is `field_count`
elements of `n` bytes at the offset, staged through the scratch buffer; a page is
"constructed empty". -/
def inline_helpers : helpers where
  read_scalar := fun n _ e => e.data_field % 256 ^ n
  read_scalar_generic := fun _ e => e.data_field
  fread_array_buffering := fun r n vec buf size ptr =>
    ((List.range vec.length).map (fun i => leVal (bytesAt r.content (ptr + n * i) n)),
      fread r.content ptr (min size (n * vec.length)) buf)
  fresh_page :=
    { width := 0, height := 0, bit_per_samples := [], sample_per_pixel := 0,
      byte_per_pixel := 0, compression := 0, colorspace := 0, planar_configuration := 0,
      strip_offsets := [], strip_byte_counts := [], rows_per_strip := 0,
      color_palette := [], description := [], date_time := [], extra_sample_counts := 0,
      extra_sample_type := 0, buffer_id := -1 }

/-- A little-endian host with a 64-byte scratch buffer and two 16-byte pixel windows. -/
def demo_config : pal_config :=
  { platform_is_big_endian := false, INFO_BUF_SIZE := 64, PIX_BUF_SIZE := 16, PIX_BUF_COUNT := 2 }

/-- The platform state of `demo_config` before any use. -/
def demo_state : pal_state :=
  { info_buffer := List.replicate 64 0, info_buffer_held := 0,
    pix_buffer := [List.replicate 16 0, List.replicate 16 0],
    pix_buffer_statics := [{ in_use := false, strip := 0, start := 0, len := 0 },
                           { in_use := false, strip := 0, start := 0, len := 0 }],
    pix_buffer_held := 0, closed := [] }

/-- The platform state after a page has reserved pixel-window slot 0. -/
def demo_state_slot0 : pal_state := (page.reserve_page_id demo_config demo_state).2

/-- A little-endian file: header `II`, version 42, directory at offset 8; one entry
`(tag, type, count, value)` with a one-byte count and value; next directory 0. -/
def one_entry_file (tag_lo tag_hi ty count value : Byte) : List Byte :=
  [0x49, 0x49, 42, 0, 8, 0, 0, 0,
   1, 0,
   tag_lo, tag_hi, ty, 0, count, 0, 0, 0, value, 0, 0, 0,
   0, 0, 0, 0]

/-- The value of the `n` bytes at file offset `pos`, in the byte order that the reader
has resolved from the magic. -/
def reader.declared_val (r : reader) (pos n : Nat) : Nat :=
  if r.is_big_endian then beVal (bytesAt r.content pos n) else leVal (bytesAt r.content pos n)

/-- The reader and the platform state right after `read_header` on a file opened with
handle 3 under `demo_config`, starting from `demo_state`. -/
def demo_reader (content : List Byte) : reader × pal_state :=
  ((reader.init 3 content).read_header demo_config demo_state).2

/-- A little-endian file with one Compression entry (value "none") whose
next-directory field, at offset 22, holds `0x01020304`. -/
def linked_file : List Byte :=
  [0x49, 0x49, 42, 0, 8, 0, 0, 0,
   1, 0,
   0x03, 0x01, 3, 0, 1, 0, 0, 0, 1, 0, 0, 0,
   4, 3, 2, 1]

/-- The effect of one directory entry on the lengths of the two strip tables
`(strip_offsets, strip_byte_counts)`: a Strip Offsets entry sets the first to its
`field_count`, a Strip Byte Counts entry sets the second, any other entry leaves both. -/
def strip_step (ls : Nat × Nat) (e : tag_entry) : Nat × Nat :=
  if e.tag = tag_t.STRIP_OFFSETS then (e.field_count, ls.2)
  else if e.tag = tag_t.STRIP_BYTE_COUNTS then (ls.1, e.field_count)
  else ls

/-- The lengths that the entries of a directory, processed in order, give to the two
strip tables, starting from the lengths `ls`. -/
def strip_table_lengths (es : List tag_entry) (ls : Nat × Nat) : Nat × Nat :=
  es.foldl strip_step ls

/-- The helper `fread_array_buffering` fills the vector it is handed and does not
change its size. -/
def keeps_length (hp : helpers) : Prop :=
  ∀ (r : reader) (n : Nat) (vec : List Nat) (buf : List Byte) (size ptr : Nat),
    (hp.fread_array_buffering r n vec buf size ptr).1.length = vec.length

/-- The reader and the platform state that `reader::open` gives for a file opened with
handle 3 under `demo_config` and `inline_helpers`, starting from `demo_state`. -/
def demo_open (content : List Byte) : reader × pal_state :=
  (reader.open_ demo_config inline_helpers 3 content demo_state).getD
    (reader.init 0 [], demo_state)

/-- Channel `k` of a colour, in the order r, g, b, a of the pointer array `c_u8`. -/
def color_t.channel (c : color_t) (k : Nat) : Byte :=
  match k with
  | 0 => c.r
  | 1 => c.g
  | 2 => c.b
  | _ => c.a

/-- The bytes of pixel number `i` of a run of pixels of `bpp` bytes each that starts at
file offset `base`. -/
def pixel_bytes (content : List Byte) (base bpp i : Nat) : List Byte :=
  bytesAt content (base + i * bpp) bpp

/-- The colour that the general unpacking loop makes of pixel number `i` of a run,
starting from the colour `c` that the slot held before. -/
def general_pixel (content : List Byte) (p : page) (base i : Nat) (c : color_t) :
    Option color_t :=
  unpack_samples (pixel_bytes content base p.byte_per_pixel i) p.bit_per_samples 0 0 c

/-- A page of 2 × 1 pixels with three samples of 8 bits, RGB, 3 bytes per pixel, one
strip of 6 bytes at file offset 8, holding the pixel-window slot `buffer_id`. -/
def rgb_page (buffer_id : Int) : page :=
  { width := 2, height := 1, bit_per_samples := [8, 8, 8], sample_per_pixel := 3,
    byte_per_pixel := 3, compression := 1, colorspace := 2, planar_configuration := 1,
    strip_offsets := [8], strip_byte_counts := [6], rows_per_strip := 1,
    color_palette := [], description := [], date_time := [], extra_sample_counts := 0,
    extra_sample_type := 0, buffer_id := buffer_id }

/-- The colour that the 2-sample path makes of pixel number `i` of a run: the field of
width `b0` at bit 0 in r, g and b, the field of width `b0` at bit `b0` in a. -/
def gray_alpha_pixel (content : List Byte) (p : page) (base b0 i : Nat) : color_t :=
  { r := extract_memory (pixel_bytes content base p.byte_per_pixel i) 0 b0,
    g := extract_memory (pixel_bytes content base p.byte_per_pixel i) 0 b0,
    b := extract_memory (pixel_bytes content base p.byte_per_pixel i) 0 b0,
    a := extract_memory (pixel_bytes content base p.byte_per_pixel i) b0 b0 }

/-- A page of 2 × 1 pixels with two samples of `b0` and `b1` bits, grayscale with black
as zero, `bpp` bytes per pixel, one strip at file offset 8, no pixel-window slot. -/
def gray_page (b0 b1 bpp : Nat) : page :=
  { width := 2, height := 1, bit_per_samples := [b0, b1], sample_per_pixel := 2,
    byte_per_pixel := bpp, compression := 1, colorspace := 1, planar_configuration := 1,
    strip_offsets := [8], strip_byte_counts := [2 * bpp], rows_per_strip := 1,
    color_palette := [], description := [], date_time := [], extra_sample_counts := 0,
    extra_sample_type := 0, buffer_id := -1 }

/-- Eight bytes of header and the four bytes `AB CD 12 34` at offset 8. -/
def gray_file : List Byte :=
  [0x49, 0x49, 42, 0, 0, 0, 0, 0, 0xAB, 0xCD, 0x12, 0x34]

/-- The platform state after the page `rgba_page 6 0` has fetched its pixel `(1, 0)`
once with `get_pixel`: slot 0 caches the strip range that starts at offset 4 and is 2
bytes long. -/
def demo_state_after_miss : pal_state :=
  (((rgba_page 6 0).get_pixel demo_config rgba_file 1 0 demo_state_slot0).map Prod.snd).getD
    demo_state

/-- The size of the window that `get_pixel` reloads on a miss:
`min(PIX_BUF_SIZE, strip_byte_counts[target_strip] - ptr)`, the subtraction in 32 bits. -/
def reload_size (cfg : pal_config) (cnt ptr : Nat) : Nat :=
  if cfg.PIX_BUF_SIZE > (cnt + 4294967296 - ptr) % 4294967296
  then (cnt + 4294967296 - ptr) % 4294967296 else cfg.PIX_BUF_SIZE

/-- The page `gray_page 8 8 2` holding pixel-window slot 0. -/
def gray_cached_page : page := { gray_page 8 8 2 with buffer_id := 0 }

/-- The platform state after `gray_cached_page` has fetched its pixel `(0, 0)` once with
`get_pixel`: slot 0 caches the 4 bytes of the strip. -/
def gray_state_after_load : pal_state :=
  ((gray_cached_page.get_pixel demo_config gray_file 0 0 demo_state_slot0).map Prod.snd).getD
    demo_state

/-- A page of 6 × 1 pixels with three samples of 8 bits, RGB, 3 bytes per pixel, one
strip of 18 bytes at file offset 8, holding pixel-window slot 0. -/
def rgb6_page : page :=
  { width := 6, height := 1, bit_per_samples := [8, 8, 8], sample_per_pixel := 3,
    byte_per_pixel := 3, compression := 1, colorspace := 2, planar_configuration := 1,
    strip_offsets := [8], strip_byte_counts := [18], rows_per_strip := 1,
    color_palette := [], description := [], date_time := [], extra_sample_counts := 0,
    extra_sample_type := 0, buffer_id := 0 }

/-- Eight bytes of header and the 18 pixel bytes `101, 102, ..., 118` at offset 8. -/
def rgb6_file : List Byte :=
  [0x49, 0x49, 42, 0, 0, 0, 0, 0,
   101, 102, 103, 104, 105, 106, 107, 108, 109, 110, 111, 112, 113, 114, 115, 116, 117, 118]

/-- The platform state after `rgb6_page` has fetched its pixel `(0, 0)` once with
`get_pixel` under `demo_config`: slot 0 caches the first 16 bytes of the strip. -/
def rgb6_state_after_load : pal_state :=
  ((rgb6_page.get_pixel demo_config rgb6_file 0 0 demo_state_slot0).map Prod.snd).getD
    demo_state

/-- The platform state of `demo_config` once both pixel-window slots are reserved. -/
def demo_state_full : pal_state := (page.reserve_page_id demo_config demo_state_slot0).2

/-- A little-endian file with two directory entries, Strip Offsets and Strip Byte Counts,
each with `field_count` 2 and its two 32-bit values out of line (at offsets 38 and 46):
strip offsets 54 and 58, strip byte counts 4 and 4, and 8 bytes of strip data. -/
def two_strip_file : List Byte :=
  [0x49, 0x49, 42, 0, 8, 0, 0, 0,
   2, 0,
   0x11, 0x01, 4, 0, 2, 0, 0, 0, 38, 0, 0, 0,
   0x17, 0x01, 4, 0, 2, 0, 0, 0, 46, 0, 0, 0,
   0, 0, 0, 0,
   54, 0, 0, 0, 58, 0, 0, 0,
   4, 0, 0, 0, 4, 0, 0, 0,
   1, 2, 3, 4, 5, 6, 7, 8]

theorem toLE_leVal (bs : List Byte) : toLE bs.length (leVal bs) = bs := by
  induction bs with
  | nil => rfl
  | cons b bs ih =>
    have hb := b.isLt
    have h1 : (b.val + 256 * leVal bs) % 256 = b.val := by omega
    have h2 : (b.val + 256 * leVal bs) / 256 = leVal bs := by omega
    simp only [List.length_cons, leVal, toLE, h2, ih]
    congr 1
    exact Fin.ext h1

theorem byteswap_leVal (bs : List Byte) : byteswap bs.length (leVal bs) = beVal bs := by
  unfold byteswap
  rw [toLE_leVal]

theorem byteswap_beVal (bs : List Byte) : byteswap bs.length (beVal bs) = leVal bs := by
  unfold byteswap beVal
  have h := toLE_leVal bs.reverse
  rw [List.length_reverse] at h
  rw [h, List.reverse_reverse]

theorem bytesAt_length (buf : List Byte) (pos n : Nat) : (bytesAt buf pos n).length = n := by
  simp [bytesAt]

/-- A field read with the swap mode that `read_header` installs has the value of its
bytes in the byte order the file declares, on either kind of host. -/
theorem read_declared (cfg : pal_config) (n : Nat) (buf : List Byte) (pos : Nat) (big : Bool) :
    (buffer_reader.read cfg n buf { pos := pos, swap := cfg.platform_is_big_endian != big }).1
      = if big then beVal (bytesAt buf pos n) else leVal (bytesAt buf pos n) := by
  have hl := bytesAt_length buf pos n
  have h1 := byteswap_leVal (bytesAt buf pos n)
  have h2 := byteswap_beVal (bytesAt buf pos n)
  rw [hl] at h1 h2
  cases hc : cfg.platform_is_big_endian <;> cases big <;> simp [buffer_reader.read, hc, h1, h2]

theorem bytesAt_fread (content buf : List Byte) (size pos n : Nat)
    (h1 : pos + n ≤ size) (h2 : pos + n ≤ content.length) :
    bytesAt (fread content 0 size buf) pos n = (content.drop pos).take n := by
  apply List.ext_getElem?
  intro i
  simp only [bytesAt, fread, List.drop_zero, List.getElem?_map, List.getElem?_take]
  by_cases hi : i < n
  · have hlt : pos + i < (List.take size content).length := by
      simp only [List.length_take]; omega
    have hlt2 : pos + i < content.length := by omega
    simp [hi, List.getElem?_range, List.getD_eq_getElem?_getD, List.getElem?_append_left hlt,
      List.getElem?_take, show pos + i < size by omega, List.getElem?_eq_getElem hlt2]
  · simp [hi, List.getElem?_range]
    omega

/-! ## Auxiliary facts: the header -/

theorem read_header_decoded (cfg : pal_config) (r : reader) (w : pal_state) :
    (r.read_header cfg w).2.1.decoded = r.decoded := by
  unfold reader.read_header
  simp only []
  split <;> [rfl; (split <;> rfl)]

theorem read_header_bad_magic (cfg : pal_config) (r : reader) (w : pal_state)
    (hlen : 2 ≤ r.content.length)
    (hII : r.content.take 2 ≠ [0x49, 0x49]) (hMM : r.content.take 2 ≠ [0x4D, 0x4D]) :
    (r.read_header cfg w).1 = false := by
  have hb : bytesAt (fread r.content 0 8 (info_buffer_lock w).info_buffer) 0 2
      = r.content.take 2 := by
    rw [bytesAt_fread _ _ 8 0 2 (by omega) (by omega)]; simp
  have ht : (bytesAt (fread r.content 0 8 (info_buffer_lock w).info_buffer) 0 2).take 2
      = r.content.take 2 := by
    rw [hb]; simp
  simp [reader.read_header, reader.fread_pos_info, buffer_reader.read_array,
    reader.check_endian_type, ht, hII, hMM]

theorem read_header_version (cfg : pal_config) (r : reader) (w : pal_state)
    (hlen : 4 ≤ r.content.length)
    (hmagic : r.content.take 2 = [0x49, 0x49] ∨ r.content.take 2 = [0x4D, 0x4D]) :
    (r.read_header cfg w).1 = decide (file_version r.content = 42) := by
  have hb : bytesAt (fread r.content 0 8 (info_buffer_lock w).info_buffer) 0 2
      = r.content.take 2 := by
    rw [bytesAt_fread _ _ 8 0 2 (by omega) (by omega)]; simp
  have hv : bytesAt (fread r.content 0 8 (info_buffer_lock w).info_buffer) 2 2
      = (r.content.drop 2).take 2 := bytesAt_fread _ _ 8 2 2 (by omega) (by omega)
  have ht : (bytesAt (fread r.content 0 8 (info_buffer_lock w).info_buffer) 0 2).take 2
      = r.content.take 2 := by
    rw [hb]; simp
  rcases hmagic with hm | hm
  · have hrd := read_declared cfg 2 (fread r.content 0 8 (info_buffer_lock w).info_buffer) 2 false
    simp only [Bool.false_eq_true, if_false, hv, Bool.bne_false] at hrd
    simp only [reader.read_header, reader.fread_pos_info, buffer_reader.read_array,
      reader.check_endian_type, ht, hm, reader.is_big_endian, buffer_reader.set_swap_mode,
      file_version]
    simp [hrd]
    split <;> simp_all
  · have hrd := read_declared cfg 2 (fread r.content 0 8 (info_buffer_lock w).info_buffer) 2 true
    simp only [if_true, hv, Bool.bne_true] at hrd
    simp only [reader.read_header, reader.fread_pos_info, buffer_reader.read_array,
      reader.check_endian_type, ht, hm, reader.is_big_endian, buffer_reader.set_swap_mode,
      file_version]
    simp [hrd]
    split <;> simp_all

/-! ## Auxiliary facts: a failing handler is fatal -/

/-- When an entry of the directory has a handler that fails whatever the page and the
state are, the entry loop ends with `false`. -/
theorem read_entries_fail (cfg : pal_config) (hp : helpers) (r : reader) (idx : Nat)
    (e : tag_entry) (f : handler) (hf : reader.tag_procs cfg hp e.tag = some f)
    (hfail : ∀ p w, (f r e p w).1 = false) :
    ∀ (es : List tag_entry) (pages : List page) (w : pal_state), e ∈ es → idx < pages.length →
      ∃ ps w', reader.read_entries cfg hp r idx es pages w = some (false, ps, w') := by
  intro es
  induction es with
  | nil => intro pages w hmem; simp at hmem
  | cons e0 es ih =>
    intro pages w hmem hidx
    unfold reader.read_entries
    cases h0 : reader.tag_procs cfg hp e0.tag with
    | none =>
      have hne : e ≠ e0 := by
        intro he; rw [he, h0] at hf; cases hf
      have hmem1 : e ∈ es := by
        rcases List.mem_cons.mp hmem with h | h
        · exact absurd h hne
        · exact h
      simpa using ih pages w hmem1 hidx
    | some f0 =>
      have hp0 : pages[idx]? = some pages[idx] := List.getElem?_eq_getElem hidx
      simp only [hp0]
      by_cases hres : (f0 r e0 pages[idx] w).1 = true
      · have hne : e ≠ e0 := by
          intro he
          rw [he, h0] at hf
          cases hf
          rw [← he, hfail] at hres
          cases hres
        have hmem1 : e ∈ es := by
          rcases List.mem_cons.mp hmem with h | h
          · exact absurd h hne
          · exact h
        simp only [hres, if_true]
        exact ih _ _ hmem1 (by simpa using hidx)
      · simp only [hres]
        exact ⟨_, _, rfl⟩

theorem read_entry_tags_fail (cfg : pal_config) (hp : helpers) (r : reader) (d : ifd)
    (e : tag_entry) (f : handler) (hf : reader.tag_procs cfg hp e.tag = some f)
    (hfail : ∀ p w, (f r e p w).1 = false) (pages : List page) (w : pal_state)
    (hmem : e ∈ d.entries) (hlen : 0 < pages.length) :
    ∃ ps w', reader.read_entry_tags cfg hp r [d] pages w = some (false, ps, w') := by
  obtain ⟨ps, w', h⟩ := read_entries_fail cfg hp r 0 e f hf hfail d.entries pages w hmem hlen
  exact ⟨ps, w', by simp [reader.read_entry_tags, reader.read_ifds, h]⟩

theorem push_pages_length (cfg : pal_config) (hp : helpers) :
    ∀ (k : Nat) (pages : List page) (w : pal_state),
      (reader.push_pages cfg hp k pages w).1.length = pages.length + k := by
  intro k
  induction k with
  | zero => intro pages w; rfl
  | succ k ih =>
    intro pages w
    simp only [reader.push_pages, ih, List.length_append, List.length_singleton]
    omega

theorem decode_prep_ifds (cfg : pal_config) (hp : helpers) (r : reader) (w : pal_state) :
    ∃ d, (reader.decode_prep cfg hp r w).1.ifds = [d] :=
  ⟨_, rfl⟩

theorem decode_prep_pages (cfg : pal_config) (hp : helpers) (r : reader) (w : pal_state) :
    0 < (reader.decode_prep cfg hp r w).1.pages.length := by
  simp only [reader.decode_prep, push_pages_length]
  simp [reader.fetch_ifds]

theorem decode_prep_decoded (cfg : pal_config) (hp : helpers) (r : reader) (w : pal_state) :
    (reader.decode_prep cfg hp r w).1.decoded = r.decoded := rfl

/-- The constructor leaves an invalid reader whenever `read_entry_tags` does not return
`true` on the first directory. -/
theorem ctor_invalid_of_tags_false (cfg : pal_config) (hp : helpers) (handle : Int)
    (content : List Byte) (w : pal_state) (ps : List page) (w1 : pal_state)
    (h : reader.read_entry_tags cfg hp (reader.at_decode cfg hp handle content w).1
      (reader.at_decode cfg hp handle content w).1.ifds
      (reader.at_decode cfg hp handle content w).1.pages
      (reader.at_decode cfg hp handle content w).2 = some (false, ps, w1)) :
    ∃ r w', reader.ctor cfg hp handle content w = some (r, w') ∧ r.is_valid = false := by
  unfold reader.ctor
  simp only []
  by_cases hs : (reader.init handle content).source ≤ 0
  · simp only [hs, if_true]
    exact ⟨_, _, rfl, by simp [reader.is_valid, reader.init]⟩
  · simp only [hs, if_false]
    by_cases hh : ((reader.init handle content).read_header cfg w).1 = true
    · simp only [hh, Bool.not_true, Bool.false_eq_true, if_false]
      unfold reader.at_decode at h
      simp only [] at h
      simp only [reader.decode, h]
      refine ⟨_, _, rfl, ?_⟩
      simp [reader.is_valid, decode_prep_decoded, read_header_decoded, reader.init]
    · have : ((reader.init handle content).read_header cfg w).1 = false := by
        simpa using hh
      simp only [this, Bool.not_false, if_true]
      exact ⟨_, _, rfl, by simp [reader.is_valid]⟩

/-- A directory entry whose handler fails whatever the page and the state are makes the
constructor leave an invalid reader. -/
theorem ctor_invalid_of_failing_entry (cfg : pal_config) (hp : helpers) (handle : Int)
    (content : List Byte) (w : pal_state) (e : tag_entry) (f : handler)
    (hmem : e ∈ reader.first_entries cfg hp handle content w)
    (hf : reader.tag_procs cfg hp e.tag = some f)
    (hfail : ∀ p w2, (f (reader.at_decode cfg hp handle content w).1 e p w2).1 = false) :
    ∃ r w', reader.ctor cfg hp handle content w = some (r, w') ∧ r.is_valid = false := by
  obtain ⟨d, hd⟩ := decode_prep_ifds cfg hp
    ((reader.init handle content).read_header cfg w).2.1
    ((reader.init handle content).read_header cfg w).2.2
  have hd1 : (reader.at_decode cfg hp handle content w).1.ifds = [d] := hd
  have hmem1 : e ∈ d.entries := by
    simpa [reader.first_entries, hd1] using hmem
  have hpg : 0 < (reader.at_decode cfg hp handle content w).1.pages.length :=
    decode_prep_pages cfg hp _ _
  obtain ⟨ps, w1, h⟩ := read_entry_tags_fail cfg hp (reader.at_decode cfg hp handle content w).1
    d e f hf hfail _ (reader.at_decode cfg hp handle content w).2 hmem1 hpg
  exact ctor_invalid_of_tags_false cfg hp handle content w ps w1 (by rw [hd1]; exact h)

theorem decode_false_of_failing_entry (cfg : pal_config) (hp : helpers) (r : reader)
    (w : pal_state) (e : tag_entry) (f : handler)
    (hmem : ∃ d ∈ (reader.decode_prep cfg hp r w).1.ifds, e ∈ d.entries)
    (hf : reader.tag_procs cfg hp e.tag = some f)
    (hfail : ∀ p w2, (f (reader.decode_prep cfg hp r w).1 e p w2).1 = false) :
    ∃ r1 w1, reader.decode cfg hp r w = some (false, r1, w1) := by
  obtain ⟨d, hd⟩ := decode_prep_ifds cfg hp r w
  obtain ⟨d1, hd1, hmem1⟩ := hmem
  rw [hd] at hd1
  have hdd : d1 = d := by simpa using hd1
  subst hdd
  obtain ⟨ps, w1, h⟩ := read_entry_tags_fail cfg hp (reader.decode_prep cfg hp r w).1
    d1 e f hf hfail _ (reader.decode_prep cfg hp r w).2 hmem1 (decode_prep_pages cfg hp r w)
  rw [← hd] at h
  refine ⟨{ (reader.decode_prep cfg hp r w).1 with pages := ps }, w1, ?_⟩
  simp only [reader.decode, h]

/-! ## Header validation (C1, C2) -/

/-- C1: a file whose 2-byte magic is neither "II" nor "MM", or whose version field,
decoded in the byte order the magic declares, is not 42, makes `reader::open` return a
reader for which `is_valid()` is false; this holds on little- and big-endian hosts and
whatever the shared buffers held before. -/
theorem open_invalid_of_bad_header (cfg : pal_config) (hp : helpers) (handle : Int)
    (content : List Byte) (w : pal_state)
    (hbad : (2 ≤ content.length ∧ content.take 2 ≠ [0x49, 0x49] ∧ content.take 2 ≠ [0x4D, 0x4D])
      ∨ (4 ≤ content.length ∧ file_version content ≠ 42)) :
    ∃ r w', reader.open_ cfg hp handle content w = some (r, w') ∧ r.is_valid = false := by
  have hh : ((reader.init handle content).read_header cfg w).1 = false := by
    by_cases hm : content.take 2 = [0x49, 0x49] ∨ content.take 2 = [0x4D, 0x4D]
    · rcases hbad with ⟨_, h1, h2⟩ | ⟨hlen, hv⟩
      · rcases hm with hm | hm
        · exact absurd hm h1
        · exact absurd hm h2
      · rw [read_header_version cfg (reader.init handle content) w hlen hm]
        simpa [reader.init] using hv
    · have hlen : 2 ≤ content.length := by
        rcases hbad with ⟨h, _⟩ | ⟨h, _⟩ <;> omega
      exact read_header_bad_magic cfg (reader.init handle content) w hlen
        (fun h => hm (Or.inl h)) (fun h => hm (Or.inr h))
  unfold reader.open_ reader.ctor
  simp only []
  by_cases hs : (reader.init handle content).source ≤ 0
  · simp only [hs, if_true]
    exact ⟨_, _, rfl, by simp [reader.is_valid, reader.init]⟩
  · simp only [hs, if_false, hh, Bool.not_false, if_true]
    exact ⟨_, _, rfl, by simp [reader.is_valid]⟩

/-- Witness of C1: a file that starts with "XX". -/
theorem open_invalid_of_bad_header_witness :
    ∃ r w', reader.open_ demo_config inline_helpers 3 [0x58, 0x58, 42, 0, 8, 0, 0, 0] demo_state
      = some (r, w') ∧ r.is_valid = false :=
  open_invalid_of_bad_header demo_config inline_helpers 3 [0x58, 0x58, 42, 0, 8, 0, 0, 0]
    demo_state (Or.inl (by decide))

/-- C2 as stated fails: this file is readable and starts with a valid little-endian
header (magic "II", version 42, directory at offset 8), but its directory holds a Date
Time entry with `field_count` 5, the handler fails, and the reader is not valid. -/
theorem open_valid_header_counterexample :
    (one_entry_file 0x32 0x01 2 5 0).take 2 = [0x49, 0x49]
      ∧ file_version (one_entry_file 0x32 0x01 2 5 0) = 42
      ∧ (reader.open_ demo_config inline_helpers 3 (one_entry_file 0x32 0x01 2 5 0)
          demo_state).map (fun res => res.1.is_valid) = some false := by
  refine ⟨by decide, by decide, ?_⟩
  rfl

/-- C2, amended: for a readable file (positive handle) whose first 8 bytes are a valid
header, magic "II" or "MM" and version 42 in the declared byte order, `reader::open`
returns a reader for which `is_valid()` is true provided `read_entry_tags` returns true
on the first directory, that is, no handler of a recognised tag fails. -/
theorem open_valid_of_header_and_tags (cfg : pal_config) (hp : helpers) (handle : Int)
    (content : List Byte) (w : pal_state)
    (hopen : 0 < handle) (hlen : 8 ≤ content.length)
    (hmagic : content.take 2 = [0x49, 0x49] ∨ content.take 2 = [0x4D, 0x4D])
    (hver : file_version content = 42)
    (htags : (reader.read_entry_tags cfg hp (reader.at_decode cfg hp handle content w).1
      (reader.at_decode cfg hp handle content w).1.ifds
      (reader.at_decode cfg hp handle content w).1.pages
      (reader.at_decode cfg hp handle content w).2).map Prod.fst = some true) :
    ∃ r w1, reader.open_ cfg hp handle content w = some (r, w1) ∧ r.is_valid = true := by
  have hh : ((reader.init handle content).read_header cfg w).1 = true := by
    rw [read_header_version cfg (reader.init handle content) w (by simpa [reader.init] using
      (by omega : 4 ≤ content.length)) hmagic]
    simpa [reader.init] using hver
  have hs : ¬ (reader.init handle content).source ≤ 0 := by
    simp only [reader.init]; omega
  have hsrc : (reader.at_decode cfg hp handle content w).1.source = handle := by
    simp only [reader.at_decode, reader.decode_prep]
    unfold reader.read_header
    simp only []
    split <;> [rfl; (split <;> rfl)]
  unfold reader.open_ reader.ctor
  simp only [hs, if_false, hh, Bool.not_true, Bool.false_eq_true]
  unfold reader.at_decode at htags hsrc
  simp only [] at htags hsrc
  cases hres : reader.read_entry_tags cfg hp
      (reader.decode_prep cfg hp ((reader.init handle content).read_header cfg w).2.1
        ((reader.init handle content).read_header cfg w).2.2).1
      (reader.decode_prep cfg hp ((reader.init handle content).read_header cfg w).2.1
        ((reader.init handle content).read_header cfg w).2.2).1.ifds
      (reader.decode_prep cfg hp ((reader.init handle content).read_header cfg w).2.1
        ((reader.init handle content).read_header cfg w).2.2).1.pages
      (reader.decode_prep cfg hp ((reader.init handle content).read_header cfg w).2.1
        ((reader.init handle content).read_header cfg w).2.2).2 with
  | none => rw [hres] at htags; cases htags
  | some res =>
    obtain ⟨ok, pages, w1⟩ := res
    rw [hres] at htags
    have hok : ok = true := by simpa using htags
    subst hok
    simp only [reader.decode, hres]
    refine ⟨_, _, rfl, ?_⟩
    simp only [reader.is_valid, hsrc, Bool.and_true]
    simp only [bne_iff_ne, ne_eq]
    omega

/-- Witness of C2, amended: a little-endian file whose only entry is Compression with
the value "none". -/
theorem open_valid_of_header_and_tags_witness :
    ∃ r w1, reader.open_ demo_config inline_helpers 3 (one_entry_file 0x03 0x01 3 1 1) demo_state
      = some (r, w1) ∧ r.is_valid = true :=
  open_valid_of_header_and_tags demo_config inline_helpers 3
    (one_entry_file 0x03 0x01 3 1 1) demo_state (by decide) (by decide) (by decide)
    (by decide) rfl

/-! ## Tag rejection (C3, C4, C6) -/

/-- C3: when the first directory of a file holds a Compression entry whose 16-bit value
is not "none" (1), LZW (5) for example, `reader::open` returns a reader for which
`is_valid()` is false (for files with a valid header in particular). -/
theorem open_invalid_of_compression (cfg : pal_config) (hp : helpers) (handle : Int)
    (content : List Byte) (w : pal_state) (e : tag_entry)
    (hmem : e ∈ reader.first_entries cfg hp handle content w)
    (htag : e.tag = tag_t.COMPRESSION)
    (hval : read_u16 hp (reader.at_decode cfg hp handle content w).1 e ≠ compression_t.NONE) :
    ∃ r w', reader.open_ cfg hp handle content w = some (r, w') ∧ r.is_valid = false := by
  apply ctor_invalid_of_failing_entry cfg hp handle content w e (tag_manager.compression hp) hmem
  · rw [htag]; rfl
  · intro p w2
    simp [tag_manager.compression, hval]

/-- Witness of C3: a little-endian file whose only entry is Compression = LZW. -/
theorem open_invalid_of_compression_witness :
    ∃ r w', reader.open_ demo_config inline_helpers 3 (one_entry_file 0x03 0x01 3 1 5) demo_state
      = some (r, w') ∧ r.is_valid = false :=
  open_invalid_of_compression demo_config inline_helpers 3 (one_entry_file 0x03 0x01 3 1 5)
    demo_state { tag := 259, field_type := 3, field_count := 1, data_field := 5 }
    (by decide) (by decide) (by decide)

/-- C4: for a Date Time entry whose `field_count` is not 20, the `date_time` handler
returns failure and leaves the page (its date-time string included) and the buffers
untouched; `read_entry_tags` returns false on every directory that contains the entry;
and a file whose first directory contains it gives an invalid reader. -/
theorem date_time_count_not_20 (cfg : pal_config) (hp : helpers) (e : tag_entry)
    (htag : e.tag = tag_t.DATE_TIME) (hcount : e.field_count ≠ 20) :
    (∀ (r : reader) (p : page) (w : pal_state),
        tag_manager.date_time cfg hp r e p w = (false, p, w))
    ∧ (∀ (r : reader) (d : ifd) (pages : List page) (w : pal_state),
        e ∈ d.entries → 0 < pages.length →
        ∃ ps w', reader.read_entry_tags cfg hp r [d] pages w = some (false, ps, w'))
    ∧ (∀ (handle : Int) (content : List Byte) (w : pal_state),
        e ∈ reader.first_entries cfg hp handle content w →
        ∃ r w', reader.open_ cfg hp handle content w = some (r, w') ∧ r.is_valid = false) := by
  have hh : ∀ (r : reader) (p : page) (w : pal_state),
      tag_manager.date_time cfg hp r e p w = (false, p, w) := by
    intro r p w
    simp [tag_manager.date_time, hcount]
  have hf : reader.tag_procs cfg hp e.tag = some (tag_manager.date_time cfg hp) := by
    rw [htag]; rfl
  refine ⟨hh, ?_, ?_⟩
  · intro r d pages w hmem hlen
    exact read_entry_tags_fail cfg hp r d e _ hf (fun p w2 => by rw [hh]) pages w hmem hlen
  · intro handle content w hmem
    exact ctor_invalid_of_failing_entry cfg hp handle content w e _ hmem hf
      (fun p w2 => by rw [hh])

/-- Witness of C4: a little-endian file whose only entry is Date Time with
`field_count` 5. -/
theorem date_time_count_not_20_witness :
    ∃ r w', reader.open_ demo_config inline_helpers 3 (one_entry_file 0x32 0x01 2 5 0) demo_state
      = some (r, w') ∧ r.is_valid = false :=
  (date_time_count_not_20 demo_config inline_helpers
    { tag := 306, field_type := 2, field_count := 5, data_field := 0 }
    (by decide) (by decide)).2.2 3 (one_entry_file 0x32 0x01 2 5 0) demo_state (by decide)

/-- C6: the Photometric Interpretation handler succeeds if and only if the entry's
16-bit value is one of the five accepted colorspaces 0 (white is zero), 1 (black is
zero), 2 (RGB), 3 (palette), 4 (transparency mask); for CMYK (5), YCbCr (6) and every
other value it fails, and then `reader::decode` returns false on a file whose directory
holds the entry. -/
theorem photometric_interpretation_accepts (cfg : pal_config) (hp : helpers) :
    (∀ (r : reader) (e : tag_entry) (p : page) (w : pal_state),
        (tag_manager.photometric_interpretation hp r e p w).1 = true ↔
          (read_u16 hp r e = 0 ∨ read_u16 hp r e = 1 ∨ read_u16 hp r e = 2
            ∨ read_u16 hp r e = 3 ∨ read_u16 hp r e = 4))
    ∧ (∀ (r : reader) (e : tag_entry) (p : page) (w : pal_state),
        read_u16 hp r e = colorspace_t.SEPARATED ∨ read_u16 hp r e = colorspace_t.YCBCR →
          (tag_manager.photometric_interpretation hp r e p w).1 = false)
    ∧ (∀ (r : reader) (w : pal_state) (e : tag_entry),
        (∃ d ∈ (reader.decode_prep cfg hp r w).1.ifds, e ∈ d.entries) →
        e.tag = tag_t.PHOTOMETRIC_INTERPRETATION →
        4 < read_u16 hp (reader.decode_prep cfg hp r w).1 e →
        ∃ r1 w1, reader.decode cfg hp r w = some (false, r1, w1)) := by
  have key : ∀ (r : reader) (e : tag_entry) (p : page) (w : pal_state),
      (tag_manager.photometric_interpretation hp r e p w).1 = true ↔
        (read_u16 hp r e = 0 ∨ read_u16 hp r e = 1 ∨ read_u16 hp r e = 2
          ∨ read_u16 hp r e = 3 ∨ read_u16 hp r e = 4) := by
    intro r e p w
    simp only [tag_manager.photometric_interpretation, colorspace_t.MINISBLACK,
      colorspace_t.MINISWHITE, colorspace_t.RGB, colorspace_t.PALETTE, colorspace_t.MASK]
    split
    · simp only [true_iff]; omega
    · simp only [Bool.false_eq_true, false_iff]; omega
  refine ⟨key, ?_, ?_⟩
  · intro r e p w hv
    have h := key r e p w
    simp only [colorspace_t.SEPARATED, colorspace_t.YCBCR] at hv
    cases hres : (tag_manager.photometric_interpretation hp r e p w).1
    · rfl
    · have := h.mp hres; omega
  · intro r w e hmem htag hv
    apply decode_false_of_failing_entry cfg hp r w e
      (tag_manager.photometric_interpretation hp) hmem
    · rw [htag]; rfl
    · intro p w2
      have h := key (reader.decode_prep cfg hp r w).1 e p w2
      cases hres : (tag_manager.photometric_interpretation hp
        (reader.decode_prep cfg hp r w).1 e p w2).1
      · rfl
      · have := h.mp hres; omega

/-- Witness of C6: a directory whose only entry is Photometric Interpretation = CMYK;
the handler fails and `decode` returns false. -/
theorem photometric_interpretation_accepts_witness :
    (tag_manager.photometric_interpretation inline_helpers (reader.init 3 [])
        { tag := 262, field_type := 3, field_count := 1, data_field := 5 }
        inline_helpers.fresh_page demo_state).1 = false
    ∧ ∃ r1 w1, reader.decode demo_config inline_helpers
        ((reader.init 3 (one_entry_file 0x06 0x01 3 1 5)).read_header demo_config demo_state).2.1
        demo_state = some (false, r1, w1) :=
  ⟨(photometric_interpretation_accepts demo_config inline_helpers).2.1 _ _ _ _
      (Or.inl (by decide)),
    (photometric_interpretation_accepts demo_config inline_helpers).2.2 _ _
      { tag := 262, field_type := 3, field_count := 1, data_field := 5 }
      ⟨_, List.mem_singleton.mpr rfl, by decide⟩ (by decide) (by decide)⟩

/-! ## Unknown tags (C5) -/

theorem read_entries_inserted (cfg : pal_config) (hp : helpers) (r : reader) (idx : Nat)
    {es es2 : List tag_entry} (hins : inserted_unknown cfg hp es es2) :
    ∀ (pages : List page) (w : pal_state),
      reader.read_entries cfg hp r idx es2 pages w = reader.read_entries cfg hp r idx es pages w := by
  induction hins with
  | done => intro pages w; rfl
  | keep e _ ih =>
    intro pages w
    simp only [reader.read_entries, ih]
  | ins e hnone _ ih =>
    intro pages w
    rw [← ih pages w]
    simp only [reader.read_entries, hnone]

theorem read_ifds_inserted (cfg : pal_config) (hp : helpers) (r : reader) (d d2 : ifd)
    (hins : inserted_unknown cfg hp d.entries d2.entries) (post : List ifd) :
    ∀ (pre : List ifd) (idx : Nat) (pages : List page) (w : pal_state),
      reader.read_ifds cfg hp r (pre ++ d2 :: post) idx pages w
        = reader.read_ifds cfg hp r (pre ++ d :: post) idx pages w := by
  intro pre
  induction pre with
  | nil =>
    intro idx pages w
    simp only [List.nil_append, reader.read_ifds, read_entries_inserted cfg hp r idx hins]
  | cons d0 pre ih =>
    intro idx pages w
    simp only [List.cons_append, reader.read_ifds]
    simp only [List.append_eq, ih]

/-- C5: inserting any number of entries whose tag id is not in the dispatch table into
a directory, at any positions and with any field type, count and value slot, changes
nothing in what `read_entry_tags` returns: neither whether it succeeds nor any field of
any resulting page (nor the state of the shared buffers). -/
theorem read_entry_tags_ignores_unknown (cfg : pal_config) (hp : helpers) (r : reader)
    (pre post : List ifd) (d d2 : ifd) (pages : List page) (w : pal_state)
    (hins : inserted_unknown cfg hp d.entries d2.entries) :
    reader.read_entry_tags cfg hp r (pre ++ d2 :: post) pages w
      = reader.read_entry_tags cfg hp r (pre ++ d :: post) pages w := by
  simp only [reader.read_entry_tags, read_ifds_inserted cfg hp r d d2 hins post pre]

/-- Witness of C5: a New Subfile Type entry (254) in front of a Compression entry and a
vendor entry (tag 999) behind it. -/
theorem read_entry_tags_ignores_unknown_witness :
    reader.read_entry_tags demo_config inline_helpers (reader.init 3 [])
        [{ entry_count := 3, next_ifd := 0, entries :=
            [{ tag := 254, field_type := 4, field_count := 1, data_field := 7 },
             { tag := 259, field_type := 3, field_count := 1, data_field := 1 },
             { tag := 999, field_type := 1, field_count := 9, data_field := 0 }] }]
        [inline_helpers.fresh_page] demo_state
      = reader.read_entry_tags demo_config inline_helpers (reader.init 3 [])
        [{ entry_count := 1, next_ifd := 0, entries :=
            [{ tag := 259, field_type := 3, field_count := 1, data_field := 1 }] }]
        [inline_helpers.fresh_page] demo_state :=
  read_entry_tags_ignores_unknown demo_config inline_helpers (reader.init 3 []) [] [] _ _
    [inline_helpers.fresh_page] demo_state
    (inserted_unknown.ins _ rfl (inserted_unknown.keep _
      (inserted_unknown.ins _ rfl inserted_unknown.done)))

/-! ## Page validation (C7, C8) -/

theorem validate_loop_nonempty (k : Nat) :
    ∀ (b : Nat) (t : List Nat),
      page.validate_loop k (b :: t) = some ((b :: t) ++ List.replicate k b) := by
  induction k with
  | zero => intro b t; simp [page.validate_loop]
  | succ k ih =>
    intro b t
    simp only [page.validate_loop, List.head?_cons, List.cons_append, ih]
    simp [List.replicate_succ]

/-- C7 as stated fails: with `samples_per_pixel` 1 and the three declared depths
8, 8, 8 the validation leaves the three depths, so the length is 3 and not 1. -/
theorem validate_bit_per_samples_counterexample :
    page.validate_bit_per_samples 1 [8, 8, 8] = some [8, 8, 8]
      ∧ ([8, 8, 8] : List Nat).length ≠ 1 := by
  decide

/-- C7, amended: for every `samples_per_pixel` value `n` and every non-empty list of
declared depths, `validate_bit_per_samples` leaves the declared depths followed by
`n - length` copies of the first declared depth; the length is exactly `n` when at most
`n` depths were declared, and the declared list stays as it is, longer than `n`,
otherwise. -/
theorem validate_bit_per_samples_pads (n : Nat) (depths : List Nat) (hne : depths ≠ []) :
    ∃ out, page.validate_bit_per_samples n depths = some out
      ∧ out = depths ++ List.replicate (n - depths.length) (depths.headD 0)
      ∧ (depths.length ≤ n → out.length = n)
      ∧ (n < depths.length → out = depths) := by
  cases depths with
  | nil => exact absurd rfl hne
  | cons b t =>
    refine ⟨_, validate_loop_nonempty _ b t, rfl, ?_, ?_⟩
    · intro h
      simp only [List.length_append, List.length_cons, List.length_replicate] at h ⊢
      omega
    · intro h
      have h0 : n - (b :: t).length = 0 := by omega
      rw [h0]
      simp

/-- Witness of C7, amended: one declared depth, three samples. -/
theorem validate_bit_per_samples_pads_witness :
    ∃ out, page.validate_bit_per_samples 3 [8] = some out
      ∧ out = [8] ++ List.replicate (3 - [8].length) (([8] : List Nat).headD 0)
      ∧ (([8] : List Nat).length ≤ 3 → out.length = 3)
      ∧ (3 < ([8] : List Nat).length → out = [8]) :=
  validate_bit_per_samples_pads 3 [8] (by decide)

theorem total_bits_foldl (depths : List Nat) :
    ∀ a : Nat, depths.foldl (fun t b => (t + b) % 65536) (a % 65536)
      = (a + depths.sum) % 65536 := by
  induction depths with
  | nil => intro a; simp
  | cons b t ih =>
    intro a
    simp only [List.foldl_cons, List.sum_cons]
    have h : (a % 65536 + b) % 65536 = (a + b) % 65536 := by omega
    rw [h, ih (a + b), Nat.add_assoc]

/-- C8: `calc_byte_per_pixel` equals the reference definition for every
`samples_per_pixel` `n` and every non-empty depth list whose exact result fits the
8-bit return type; in particular `n=3,[8,8,8]` gives 3, `n=4,[8,8,8,8]` gives 4 and
`n=3,[5,5,5]` gives 0. -/
theorem calc_byte_per_pixel_eq_reference :
    (∀ (n : Nat) (depths : List Nat), depths ≠ [] →
        calc_byte_per_pixel_reference n depths < 256 →
        page.calc_byte_per_pixel n depths = calc_byte_per_pixel_reference n depths)
    ∧ page.calc_byte_per_pixel 3 [8, 8, 8] = 3
    ∧ page.calc_byte_per_pixel 4 [8, 8, 8, 8] = 4
    ∧ page.calc_byte_per_pixel 3 [5, 5, 5] = 0 := by
  refine ⟨?_, by decide, by decide, by decide⟩
  intro n depths hne hfit
  have hlen : 1 ≤ depths.length := by
    cases depths with
    | nil => exact absurd rfl hne
    | cons b t => simp
  have hfold := total_bits_foldl depths 0
  simp only [Nat.zero_mod, Nat.zero_add] at hfold
  unfold page.calc_byte_per_pixel
  unfold calc_byte_per_pixel_reference at hfit ⊢
  by_cases hn : depths.length = n
  · subst hn
    simp only [ne_eq, not_true_eq_false, false_and, if_false, hfold] at hfit ⊢
    split_ifs at hfit ⊢ <;> omega
  · have hc : depths.length ≠ n ∧ depths.length ≥ 1 := ⟨hn, hlen⟩
    simp only [hc, and_self, if_true, ne_eq, hn, not_false_eq_true] at hfit ⊢
    omega

/-- Witness of C8: three samples of 8 bits. -/
theorem calc_byte_per_pixel_eq_reference_witness :
    page.calc_byte_per_pixel 3 [8, 8, 8] = calc_byte_per_pixel_reference 3 [8, 8, 8] :=
  calc_byte_per_pixel_eq_reference.1 3 [8, 8, 8] (by decide) (by decide)

/-! ## Strip lookup (C9) -/

theorem sum_take_succ (l : List Nat) (i : Nat) (h : i < l.length) :
    (l.take (i + 1)).sum = (l.take i).sum + l.getD i 0 := by
  rw [List.take_succ, List.sum_append, List.getD_eq_getElem?_getD, List.getElem?_eq_getElem h]
  simp

/-- The scan under exact 32-bit arithmetic: it stops at the least index whose running
total exceeds `ptr`; the strip counter holds that index modulo `2^16`. -/
theorem strip_scan_spec (ptr : Nat) :
    ∀ (counts : List Nat) (t total : Nat), t < 65536 → total ≤ ptr →
      total + counts.sum < 4294967296 → ptr < total + counts.sum →
      ∃ i, i < counts.length ∧ ptr < total + (counts.take (i + 1)).sum
        ∧ (∀ j, j < i → total + (counts.take (j + 1)).sum ≤ ptr)
        ∧ page.strip_scan ptr counts t total = ((t + i) % 65536, total + (counts.take i).sum) := by
  intro counts
  induction counts with
  | nil =>
    intro t total _ h1 _ h3
    simp at h3
    omega
  | cons s ss ih =>
    intro t total ht h1 h2 h3
    simp only [List.sum_cons] at h2 h3
    have hmod : (total + s) % 4294967296 = total + s := by omega
    unfold page.strip_scan
    rw [hmod]
    by_cases hgt : total + s > ptr
    · refine ⟨0, by simp, by simpa using hgt, ?_, ?_⟩
      · intro j hj; omega
      · simp only [hgt, if_true, List.take_zero, List.sum_nil, Nat.add_zero]
        congr 1
        omega
    · obtain ⟨i, hi, hp, hall, hsc⟩ := ih ((t + 1) % 65536) (total + s)
        (Nat.mod_lt _ (by decide)) (by omega) (by omega) (by omega)
      refine ⟨i + 1, by simpa using hi, ?_, ?_, ?_⟩
      · simp only [List.take_succ_cons, List.sum_cons]
        omega
      · intro j hj
        cases j with
        | zero => simp; omega
        | succ j =>
          have := hall j (by omega)
          simp only [List.take_succ_cons, List.sum_cons]
          omega
      · simp only [hgt, if_false, hsc, List.take_succ_cons, List.sum_cons]
        congr 1
        · omega
        · omega

theorem sum_replicate_one (n : Nat) : (List.replicate n 1).sum = n := by
  simp

theorem sum_take_replicate_one (n k : Nat) : ((List.replicate n 1).take k).sum = min k n := by
  simp [List.take_replicate]

/-- C9 as stated fails: for 65537 strips of one byte each and the flat offset 65536
(all sums below `2^32`, offset below the total) the least index whose running total
exceeds the offset is 65536, but the 16-bit strip counter of the scan has wrapped and
the lookup gives strip 0, offset 0. -/
theorem strip_lookup_counterexample :
    (List.replicate 65537 1).sum < 4294967296
      ∧ 65536 < (List.replicate 65537 1).sum
      ∧ is_target_strip (List.replicate 65537 1) 65536 65536
      ∧ page.strip_lookup 65536 (List.replicate 65537 1) = (0, 0) := by
  have hsum : ∀ k, ((List.replicate 65537 1).take k).sum = min k 65537 :=
    sum_take_replicate_one 65537
  have htot : (List.replicate 65537 1).sum = 65537 := sum_replicate_one 65537
  have hlen : (List.replicate 65537 1).length = 65537 := List.length_replicate _ _
  refine ⟨by rw [htot]; decide, by rw [htot]; decide, ?_, ?_⟩
  · refine ⟨by rw [hlen]; decide, ?_, ?_⟩
    · rw [hsum]; decide
    · intro j hj
      rw [hsum]
      omega
  · obtain ⟨i, hi, hp, _, hsc⟩ := strip_scan_spec 65536 (List.replicate 65537 1) 0 0
      (by decide) (by decide) (by rw [htot]; decide) (by rw [htot]; decide)
    rw [hsum] at hp
    rw [hlen] at hi
    have hi2 : i = 65536 := by omega
    subst hi2
    unfold page.strip_lookup
    rw [hsc, hsum]
    decide

/-- C9, amended: for every list of at most 65536 strip byte counts whose total is below
`2^32` and every flat byte offset `ptr` smaller than the total, the scan selects the
least index `i` with `counts[0]+...+counts[i] > ptr`, which is a valid strip index, and
the rebased offset is `ptr - (counts[0]+...+counts[i-1])`, smaller than `counts[i]`.
For counts `[100,100,100]` and `ptr` 250 the result is strip 2, offset 50. -/
theorem strip_lookup_least_index :
    (∀ (counts : List Nat) (ptr : Nat), counts.length ≤ 65536 →
        counts.sum < 4294967296 → ptr < counts.sum →
        ∃ i, is_target_strip counts ptr i
          ∧ page.strip_lookup ptr counts = (i, ptr - (counts.take i).sum)
          ∧ ptr - (counts.take i).sum < counts.getD i 0)
    ∧ page.strip_lookup 250 [100, 100, 100] = (2, 50) := by
  refine ⟨?_, by decide⟩
  intro counts ptr hlen hsum hptr
  obtain ⟨i, hi, hp, hall, hsc⟩ := strip_scan_spec ptr counts 0 0 (by decide) (Nat.zero_le _)
    (by omega) (by omega)
  simp only [Nat.zero_add] at hp hall hsc
  have hstep := sum_take_succ counts i hi
  have hle : (counts.take i).sum ≤ ptr := by
    cases i with
    | zero => simp
    | succ k => exact hall k (by omega)
  refine ⟨i, ⟨hi, hp, hall⟩, ?_, by omega⟩
  simp only [page.strip_lookup, hsc]
  congr 1
  · omega
  · omega

/-- Witness of C9, amended: three strips of 100 bytes, offset 250. -/
theorem strip_lookup_least_index_witness :
    ∃ i, is_target_strip [100, 100, 100] 250 i
      ∧ page.strip_lookup 250 [100, 100, 100] = (i, 250 - (([100, 100, 100] : List Nat).take i).sum)
      ∧ 250 - (([100, 100, 100] : List Nat).take i).sum < ([100, 100, 100] : List Nat).getD i 0 :=
  strip_lookup_least_index.1 [100, 100, 100] 250 (by decide) (by decide) (by decide)

/-! ## Fast path against the single-pixel fetch (C10) -/

theorem range_eight : List.range 8 = [0, 1, 2, 3, 4, 5, 6, 7] := by decide

theorem bitAt_byte (buf : List Byte) (k i : Nat) (hi : i < 8) :
    bitAt buf (8 * k + i) = ((buf.getD k 0).val / 2 ^ (7 - i)) % 2 := by
  unfold bitAt
  have h1 : (8 * k + i) / 8 = k := by omega
  have h2 : (8 * k + i) % 8 = i := by omega
  rw [h1, h2]

/-- An 8-bit field that starts on a byte boundary is that byte. -/
theorem extract_memory_byte (buf : List Byte) (k : Nat) :
    extract_memory buf (8 * k) 8 = buf.getD k 0 := by
  unfold extract_memory
  rw [range_eight]
  simp only [List.foldl_cons, List.foldl_nil]
  rw [bitAt_byte buf k 0 (by decide), bitAt_byte buf k 1 (by decide),
    bitAt_byte buf k 2 (by decide), bitAt_byte buf k 3 (by decide),
    bitAt_byte buf k 4 (by decide), bitAt_byte buf k 5 (by decide),
    bitAt_byte buf k 6 (by decide), bitAt_byte buf k 7 (by decide)]
  have hb := (buf.getD k 0).isLt
  apply Fin.ext
  simp only [toByte]
  norm_num
  omega

/-- Unpacking four 8-bit samples from a buffer whose first four bytes are the file
bytes at `base` gives the colour of those bytes. -/
theorem unpack_rgba (content buf : List Byte) (base : Nat) (c : color_t)
    (h : ∀ k, k < 4 → buf.getD k 0 = content.getD (base + k) 0) :
    unpack_samples buf [8, 8, 8, 8] 0 0 c = some (color_at content base) := by
  have e0 := extract_memory_byte buf 0
  have e1 := extract_memory_byte buf 1
  have e2 := extract_memory_byte buf 2
  have e3 := extract_memory_byte buf 3
  simp only [Nat.mul_zero, Nat.mul_one, Nat.reduceMul] at e0 e1 e2 e3
  have h0 := h 0 (by decide)
  have h1 := h 1 (by decide)
  have h2 := h 2 (by decide)
  have h3 := h 3 (by decide)
  simp only [Nat.add_zero] at h0
  simp only [List.getD_eq_getElem?_getD] at h0 h1 h2 h3
  simp [unpack_samples, color_t.set_channel, e0, e1, e2, e3, color_at]
  exact ⟨h0, h1, h2, h3⟩

theorem fread_getD (content dest : List Byte) (base size k : Nat)
    (hk : k < size) (hfile : base + k < content.length) :
    (fread content base size dest).getD k 0 = content.getD (base + k) 0 := by
  unfold fread
  have hlen : k < ((content.drop base).take size).length := by
    simp only [List.length_take, List.length_drop]; omega
  simp only [List.getD_eq_getElem?_getD, List.getElem?_append_left hlen, List.getElem?_take,
    hk, if_true, List.getElem?_drop]

/-- The fast path of `get_pixels` for one pixel: the four file bytes at `base`. -/
theorem fast_copy_one (content : List Byte) (base : Nat) (c0 : color_t)
    (hfile : base + 4 ≤ content.length) :
    colors_of_bytes (fread content base (4 * 1) ([c0].flatMap color_t.bytes))
      = [color_at content base] := by
  have hlen : (fread content base (4 * 1) ([c0].flatMap color_t.bytes)).length = 4 := by
    simp [fread, color_t.bytes]
  have g0 := fread_getD content ([c0].flatMap color_t.bytes) base (4 * 1) 0 (by decide) (by omega)
  have g1 := fread_getD content ([c0].flatMap color_t.bytes) base (4 * 1) 1 (by decide) (by omega)
  have g2 := fread_getD content ([c0].flatMap color_t.bytes) base (4 * 1) 2 (by decide) (by omega)
  have g3 := fread_getD content ([c0].flatMap color_t.bytes) base (4 * 1) 3 (by decide) (by omega)
  generalize fread content base (4 * 1) ([c0].flatMap color_t.bytes) = l at hlen g0 g1 g2 g3
  match l, hlen with
  | [b0, b1, b2, b3], _ =>
    simp only [List.getD_cons_zero, List.getD_cons_succ, Nat.add_zero] at g0 g1 g2 g3
    simp [colors_of_bytes, color_at, g0, g1, g2, g3]

/-- The fast path of `get_pixels` for one pixel of a 4 × 8 bit RGB page. -/
theorem get_pixels_fast_one (content : List Byte) (p : page) (x y : Nat) (c0 : color_t)
    (w : pal_state) (off : Nat)
    (hbps : p.bit_per_samples = [8, 8, 8, 8]) (hspp : p.sample_per_pixel = 4)
    (hcs : p.colorspace = colorspace_t.RGB)
    (hoff : p.strip_offsets[(p.locate x y).1]? = some off)
    (hfile : (off + (p.locate x y).2) % 4294967296 + 4 ≤ content.length) :
    p.get_pixels content x y 1 [c0] w
      = some (1, [color_at content ((off + (p.locate x y).2) % 4294967296)], w) := by
  unfold page.get_pixels
  simp only [hoff, hbps, hspp, hcs, and_self, if_true, List.length_singleton,
    Nat.lt_irrefl, if_false, Option.map_some']
  rw [fast_copy_one content _ c0 hfile]

theorem resize_length (v : List Nat) (n : Nat) : (resize v n).length = n := by
  simp only [resize, List.length_append, List.length_take, List.length_replicate]
  omega

theorem locked_fread_array_length (cfg : pal_config) (hp : helpers) (hkeep : keeps_length hp)
    (r : reader) (elem : Nat) (vec : List Nat) (ptr : Nat) (w : pal_state) :
    (locked_fread_array cfg hp r elem vec ptr w).1.length = vec.length := by
  simp only [locked_fread_array]
  exact hkeep _ _ _ _ _ _

/-- The handlers by what they do to the strip tables: the Strip Offsets handler, the
Strip Byte Counts handler, and the other fifteen, which leave both tables alone. -/
theorem tag_procs_cases (cfg : pal_config) (hp : helpers) (tag : Nat) (f : handler)
    (hf : reader.tag_procs cfg hp tag = some f) :
    (tag = tag_t.STRIP_OFFSETS ∧ f = tag_manager.strip_offsets cfg hp)
    ∨ (tag = tag_t.STRIP_BYTE_COUNTS ∧ tag ≠ tag_t.STRIP_OFFSETS
        ∧ f = tag_manager.strip_byte_counts cfg hp)
    ∨ (tag ≠ tag_t.STRIP_OFFSETS ∧ tag ≠ tag_t.STRIP_BYTE_COUNTS
        ∧ ∀ (r : reader) (e : tag_entry) (p : page) (w : pal_state),
            (f r e p w).2.1.strip_offsets = p.strip_offsets
              ∧ (f r e p w).2.1.strip_byte_counts = p.strip_byte_counts) := by
  unfold reader.tag_procs at hf
  by_cases h1 : tag = tag_t.IMAGE_WIDTH
  · rw [if_pos h1] at hf
    cases hf
    refine Or.inr (Or.inr ⟨by rw [h1]; decide, by rw [h1]; decide, fun r e p w => ?_⟩)
    simp [tag_manager.image_width]
  rw [if_neg h1] at hf
  by_cases h2 : tag = tag_t.IMAGE_LENGTH
  · rw [if_pos h2] at hf
    cases hf
    refine Or.inr (Or.inr ⟨by rw [h2]; decide, by rw [h2]; decide, fun r e p w => ?_⟩)
    simp [tag_manager.image_length]
  rw [if_neg h2] at hf
  by_cases h3 : tag = tag_t.BITS_PER_SAMPLE
  · rw [if_pos h3] at hf
    cases hf
    refine Or.inr (Or.inr ⟨by rw [h3]; decide, by rw [h3]; decide, fun r e p w => ?_⟩)
    simp only [tag_manager.bits_per_sample]
    split_ifs <;> simp
  rw [if_neg h3] at hf
  by_cases h4 : tag = tag_t.COMPRESSION
  · rw [if_pos h4] at hf
    cases hf
    refine Or.inr (Or.inr ⟨by rw [h4]; decide, by rw [h4]; decide, fun r e p w => ?_⟩)
    simp only [tag_manager.compression]
    split_ifs <;> simp
  rw [if_neg h4] at hf
  by_cases h5 : tag = tag_t.PHOTOMETRIC_INTERPRETATION
  · rw [if_pos h5] at hf
    cases hf
    refine Or.inr (Or.inr ⟨by rw [h5]; decide, by rw [h5]; decide, fun r e p w => ?_⟩)
    simp only [tag_manager.photometric_interpretation]
    split_ifs <;> simp
  rw [if_neg h5] at hf
  by_cases h6 : tag = tag_t.STRIP_OFFSETS
  · rw [if_pos h6] at hf
    cases hf
    exact Or.inl ⟨h6, rfl⟩
  rw [if_neg h6] at hf
  by_cases h7 : tag = tag_t.ROWS_PER_STRIP
  · rw [if_pos h7] at hf
    cases hf
    refine Or.inr (Or.inr ⟨h6, by rw [h7]; decide, fun r e p w => ?_⟩)
    simp [tag_manager.rows_per_strip]
  rw [if_neg h7] at hf
  by_cases h8 : tag = tag_t.STRIP_BYTE_COUNTS
  · rw [if_pos h8] at hf
    cases hf
    exact Or.inr (Or.inl ⟨h8, h6, rfl⟩)
  rw [if_neg h8] at hf
  by_cases h9 : tag = tag_t.X_RESOLUTION
  · rw [if_pos h9] at hf
    cases hf
    refine Or.inr (Or.inr ⟨h6, h8, fun r e p w => ?_⟩)
    simp [tag_manager.x_resolution]
  rw [if_neg h9] at hf
  by_cases h10 : tag = tag_t.Y_RESOLUTION
  · rw [if_pos h10] at hf
    cases hf
    refine Or.inr (Or.inr ⟨h6, h8, fun r e p w => ?_⟩)
    simp [tag_manager.y_resolution]
  rw [if_neg h10] at hf
  by_cases h11 : tag = tag_t.PLANAR_CONFIGURATION
  · rw [if_pos h11] at hf
    cases hf
    refine Or.inr (Or.inr ⟨h6, h8, fun r e p w => ?_⟩)
    simp only [tag_manager.planar_configuration]
    split_ifs <;> simp
  rw [if_neg h11] at hf
  by_cases h12 : tag = tag_t.RESOLUTION_UNIT
  · rw [if_pos h12] at hf
    cases hf
    refine Or.inr (Or.inr ⟨h6, h8, fun r e p w => ?_⟩)
    simp [tag_manager.resolution_unit]
  rw [if_neg h12] at hf
  by_cases h13 : tag = tag_t.COLOR_MAP
  · rw [if_pos h13] at hf
    cases hf
    refine Or.inr (Or.inr ⟨h6, h8, fun r e p w => ?_⟩)
    simp only [tag_manager.color_map]
    split_ifs <;> simp
  rw [if_neg h13] at hf
  by_cases h14 : tag = tag_t.IMAGE_DESCRIPTION
  · rw [if_pos h14] at hf
    cases hf
    refine Or.inr (Or.inr ⟨h6, h8, fun r e p w => ?_⟩)
    simp only [tag_manager.image_description]
    split_ifs <;> simp
  rw [if_neg h14] at hf
  by_cases h15 : tag = tag_t.SAMPLES_PER_PIXEL
  · rw [if_pos h15] at hf
    cases hf
    refine Or.inr (Or.inr ⟨h6, h8, fun r e p w => ?_⟩)
    simp [tag_manager.samples_per_pixel]
  rw [if_neg h15] at hf
  by_cases h16 : tag = tag_t.DATE_TIME
  · rw [if_pos h16] at hf
    cases hf
    refine Or.inr (Or.inr ⟨h6, h8, fun r e p w => ?_⟩)
    simp only [tag_manager.date_time]
    split_ifs <;> simp
  rw [if_neg h16] at hf
  by_cases h17 : tag = tag_t.EXTRA_SAMPLES
  · rw [if_pos h17] at hf
    cases hf
    refine Or.inr (Or.inr ⟨h6, h8, fun r e p w => ?_⟩)
    simp [tag_manager.extra_samples]
  rw [if_neg h17] at hf
  cases hf

/-- One handler, when it succeeds, moves the lengths of the two strip tables as
`strip_step` says. -/
theorem handler_strip_lengths (cfg : pal_config) (hp : helpers) (hkeep : keeps_length hp)
    (r : reader) (e : tag_entry) (f : handler) (p : page) (w : pal_state)
    (hf : reader.tag_procs cfg hp e.tag = some f) (hok : (f r e p w).1 = true) :
    ((f r e p w).2.1.strip_offsets.length, (f r e p w).2.1.strip_byte_counts.length)
      = strip_step (p.strip_offsets.length, p.strip_byte_counts.length) e := by
  rcases tag_procs_cases cfg hp e.tag f hf with ⟨ht, hfe⟩ | ⟨ht, hn, hfe⟩ | ⟨hn1, hn2, hfe⟩
  · subst hfe
    have h1 : strip_step (p.strip_offsets.length, p.strip_byte_counts.length) e
        = (e.field_count, p.strip_byte_counts.length) := by
      unfold strip_step
      rw [if_pos ht]
    rw [h1]
    simp only [tag_manager.strip_offsets] at hok ⊢
    split_ifs at hok ⊢
    · simp only [locked_fread_array_length cfg hp hkeep, resize_length]
    · simp only [List.length_set, resize_length]
  · subst hfe
    have h1 : strip_step (p.strip_offsets.length, p.strip_byte_counts.length) e
        = (p.strip_offsets.length, e.field_count) := by
      unfold strip_step
      rw [if_neg hn, if_pos ht]
    rw [h1]
    simp only [tag_manager.strip_byte_counts] at hok ⊢
    split_ifs at hok ⊢
    · simp only [locked_fread_array_length cfg hp hkeep, resize_length]
    · simp only [List.length_set, resize_length]
  · have h1 : strip_step (p.strip_offsets.length, p.strip_byte_counts.length) e
        = (p.strip_offsets.length, p.strip_byte_counts.length) := by
      unfold strip_step
      rw [if_neg hn1, if_neg hn2]
    rw [h1, (hfe r e p w).1, (hfe r e p w).2]

theorem tag_procs_none_not_strip (cfg : pal_config) (hp : helpers) (tag : Nat)
    (h : reader.tag_procs cfg hp tag = none) :
    tag ≠ tag_t.STRIP_OFFSETS ∧ tag ≠ tag_t.STRIP_BYTE_COUNTS := by
  constructor
  · intro ht
    subst ht
    cases h
  · intro ht
    subst ht
    cases h

/-- The entry loop, when it succeeds, leaves the page with strip tables of the lengths
that `strip_table_lengths` computes from the entries. -/
theorem read_entries_strip_lengths (cfg : pal_config) (hp : helpers) (hkeep : keeps_length hp)
    (r : reader) (idx : Nat) :
    ∀ (es : List tag_entry) (pages : List page) (w : pal_state) (pages2 : List page)
      (w2 : pal_state) (p : page),
      reader.read_entries cfg hp r idx es pages w = some (true, pages2, w2) →
      pages[idx]? = some p →
      ∃ q, pages2[idx]? = some q ∧ pages2.length = pages.length
        ∧ (q.strip_offsets.length, q.strip_byte_counts.length)
            = strip_table_lengths es (p.strip_offsets.length, p.strip_byte_counts.length) := by
  intro es
  induction es with
  | nil =>
    intro pages w pages2 w2 p h hp0
    simp only [reader.read_entries, Option.some.injEq, Prod.mk.injEq, true_and] at h
    obtain ⟨h1, _⟩ := h
    subst h1
    exact ⟨p, hp0, rfl, rfl⟩
  | cons e es ih =>
    intro pages w pages2 w2 p h hp0
    unfold reader.read_entries at h
    cases ht : reader.tag_procs cfg hp e.tag with
    | none =>
      simp only [ht] at h
      obtain ⟨q, hq, hl, hlen⟩ := ih pages w pages2 w2 p h hp0
      refine ⟨q, hq, hl, ?_⟩
      obtain ⟨n1, n2⟩ := tag_procs_none_not_strip cfg hp e.tag ht
      rw [hlen]
      simp only [strip_table_lengths, List.foldl_cons, strip_step, if_neg n1, if_neg n2]
    | some f =>
      simp only [ht, hp0] at h
      by_cases hres : (f r e p w).1 = true
      · simp only [hres, if_true] at h
        have hidx : idx < pages.length := by
          rcases Nat.lt_or_ge idx pages.length with hlt | hge
          · exact hlt
          · rw [List.getElem?_eq_none hge] at hp0
            cases hp0
        have hset : (pages.set idx (f r e p w).2.1)[idx]? = some (f r e p w).2.1 := by
          rw [List.getElem?_set_self (by simpa using hidx)]
        obtain ⟨q, hq, hl, hlen⟩ := ih _ _ pages2 w2 _ h hset
        refine ⟨q, hq, by simpa using hl, ?_⟩
        rw [hlen, handler_strip_lengths cfg hp hkeep r e f p w ht hres]
        simp only [strip_table_lengths, List.foldl_cons]
      · simp only [hres] at h
        simp at h

theorem validate_strip_tables (p q : page) (h : p.validate = some q) :
    q.strip_offsets = p.strip_offsets ∧ q.strip_byte_counts = p.strip_byte_counts := by
  unfold page.validate at h
  cases hv : page.validate_bit_per_samples p.sample_per_pixel p.bit_per_samples with
  | none => simp only [hv] at h; cases h
  | some bps =>
    simp only [hv, Option.some.injEq] at h
    subst h
    exact ⟨rfl, rfl⟩

/-- A successful `read_entry_tags` on one directory and one page: the strip tables of
the validated page have the lengths computed from the entries. -/
theorem read_entry_tags_strip_lengths (cfg : pal_config) (hp : helpers)
    (hkeep : keeps_length hp) (r : reader) (d : ifd) (p : page) (w : pal_state)
    (pages2 : List page) (w2 : pal_state)
    (h : reader.read_entry_tags cfg hp r [d] [p] w = some (true, pages2, w2)) :
    ∃ q, pages2 = [q]
      ∧ (q.strip_offsets.length, q.strip_byte_counts.length)
          = strip_table_lengths d.entries (p.strip_offsets.length, p.strip_byte_counts.length) := by
  unfold reader.read_entry_tags at h
  simp only [reader.read_ifds] at h
  cases he : reader.read_entries cfg hp r 0 d.entries [p] w with
  | none => simp only [he] at h; cases h
  | some res =>
    obtain ⟨ok, pages1, w1⟩ := res
    cases ok with
    | false => simp only [he] at h; cases h
    | true =>
      simp only [he] at h
      obtain ⟨q1, hq1, hl1, hlen1⟩ := read_entries_strip_lengths cfg hp hkeep r 0 d.entries [p] w
        pages1 w1 p he rfl
      have hp1 : pages1 = [q1] := by
        match pages1, hl1, hq1 with
        | [x], _, hx =>
          simp only [List.getElem?_cons_zero, Option.some.injEq] at hx
          rw [hx]
      subst hp1
      simp only [validate_pages] at h
      cases hv : q1.validate with
      | none => simp only [hv] at h; cases h
      | some q =>
        simp only [hv, Option.some.injEq, Prod.mk.injEq, true_and] at h
        obtain ⟨h1, _⟩ := h
        obtain ⟨hs1, hs2⟩ := validate_strip_tables q1 q hv
        exact ⟨q, h1.symm, by rw [hs1, hs2, hlen1]⟩

theorem read_header_pages (cfg : pal_config) (r : reader) (w : pal_state) :
    (r.read_header cfg w).2.1.pages = r.pages := by
  unfold reader.read_header
  simp only []
  split <;> [rfl; (split <;> rfl)]

theorem decode_prep_single_page (cfg : pal_config) (hp : helpers) (r : reader) (w : pal_state)
    (hpages : r.pages = []) :
    ∃ b : Int, (reader.decode_prep cfg hp r w).1.pages = [{ hp.fresh_page with buffer_id := b }] := by
  refine ⟨(page.reserve_page_id cfg (r.fetch_ifds cfg w).2).1, ?_⟩
  obtain ⟨d, hd⟩ := decode_prep_ifds cfg hp r w
  have hl : (r.fetch_ifds cfg w).1.length = 1 := by
    have : (r.fetch_ifds cfg w).1 = [d] := hd
    rw [this]; rfl
  simp only [reader.decode_prep, hl, hpages, reader.push_pages, List.nil_append, page.ctor]

/-! ## Pages that the decoder builds -/

/-- A reader that `open` leaves valid comes from a successful `read_entry_tags` on the
first directory of the file and one default page. -/
theorem open_valid_entry_tags (cfg : pal_config) (hp : helpers) (handle : Int)
    (content : List Byte) (w : pal_state) (r : reader) (w2 : pal_state)
    (hopen : reader.open_ cfg hp handle content w = some (r, w2))
    (hvalid : r.is_valid = true) :
    ∃ (rr : reader) (d : ifd) (b : Int) (w0 w1 : pal_state),
      reader.first_entries cfg hp handle content w = d.entries
      ∧ reader.read_entry_tags cfg hp rr [d] [{ hp.fresh_page with buffer_id := b }] w0
          = some (true, r.pages, w1) := by
  unfold reader.open_ reader.ctor at hopen
  simp only [] at hopen
  by_cases hs : (reader.init handle content).source ≤ 0
  · simp only [hs, if_true, Option.some.injEq, Prod.mk.injEq] at hopen
    rw [← hopen.1] at hvalid
    simp [reader.is_valid, reader.init] at hvalid
  · simp only [hs, if_false] at hopen
    by_cases hh : ((reader.init handle content).read_header cfg w).1 = true
    · simp only [hh, Bool.not_true, Bool.false_eq_true, if_false] at hopen
      obtain ⟨d, hd⟩ := decode_prep_ifds cfg hp
        ((reader.init handle content).read_header cfg w).2.1
        ((reader.init handle content).read_header cfg w).2.2
      obtain ⟨b, hb⟩ := decode_prep_single_page cfg hp
        ((reader.init handle content).read_header cfg w).2.1
        ((reader.init handle content).read_header cfg w).2.2
        (by rw [read_header_pages]; rfl)
      have hfirst : reader.first_entries cfg hp handle content w = d.entries := by
        simp only [reader.first_entries, reader.at_decode, hd]
      unfold reader.decode at hopen
      simp only [hd, hb] at hopen
      cases htags : reader.read_entry_tags cfg hp
          (reader.decode_prep cfg hp ((reader.init handle content).read_header cfg w).2.1
            ((reader.init handle content).read_header cfg w).2.2).1 [d]
          [{ hp.fresh_page with buffer_id := b }]
          (reader.decode_prep cfg hp ((reader.init handle content).read_header cfg w).2.1
            ((reader.init handle content).read_header cfg w).2.2).2 with
      | none => simp only [htags] at hopen; cases hopen
      | some res =>
        obtain ⟨ok, pages1, w1⟩ := res
        cases ok with
        | false =>
          simp only [htags, Option.some.injEq, Prod.mk.injEq] at hopen
          rw [← hopen.1] at hvalid
          simp [reader.is_valid, decode_prep_decoded, read_header_decoded, reader.init] at hvalid
        | true =>
          simp only [htags, Option.some.injEq, Prod.mk.injEq] at hopen
          have hpages : r.pages = pages1 := by rw [← hopen.1]
          exact ⟨_, d, b, _, w1, hfirst, by rw [hpages]; exact htags⟩
    · have hf : ((reader.init handle content).read_header cfg w).1 = false := by
        simpa using hh
      simp only [hf, Bool.not_false, if_true, Option.some.injEq, Prod.mk.injEq] at hopen
      rw [← hopen.1] at hvalid
      simp [reader.is_valid] at hvalid

/-- A strip table that an entry with a `field_count` of at least one has set has at
least one element. -/
theorem strip_table_lengths_pos :
    ∀ (es : List tag_entry) (ls : Nat × Nat),
      (∀ e ∈ es, (e.tag = tag_t.STRIP_OFFSETS ∨ e.tag = tag_t.STRIP_BYTE_COUNTS) →
        1 ≤ e.field_count) →
      (((∃ e ∈ es, e.tag = tag_t.STRIP_OFFSETS) ∨ 1 ≤ ls.1) →
          1 ≤ (strip_table_lengths es ls).1)
      ∧ (((∃ e ∈ es, e.tag = tag_t.STRIP_BYTE_COUNTS) ∨ 1 ≤ ls.2) →
          1 ≤ (strip_table_lengths es ls).2) := by
  intro es
  induction es with
  | nil =>
    intro ls _
    constructor
    · rintro (⟨e, he, _⟩ | h)
      · cases he
      · exact h
    · rintro (⟨e, he, _⟩ | h)
      · cases he
      · exact h
  | cons e es ih =>
    intro ls hc
    have hc2 : ∀ e2 ∈ es, (e2.tag = tag_t.STRIP_OFFSETS ∨ e2.tag = tag_t.STRIP_BYTE_COUNTS) →
        1 ≤ e2.field_count := fun e2 h2 => hc e2 (List.mem_cons_of_mem _ h2)
    have hstep : strip_table_lengths (e :: es) ls = strip_table_lengths es (strip_step ls e) := by
      simp only [strip_table_lengths, List.foldl_cons]
    rw [hstep]
    obtain ⟨ih1, ih2⟩ := ih (strip_step ls e) hc2
    constructor
    · intro h
      apply ih1
      rcases h with ⟨e2, he2, ht2⟩ | h
      · rcases List.mem_cons.mp he2 with heq | hmem
        · subst heq
          right
          unfold strip_step
          rw [if_pos ht2]
          exact hc e2 (List.mem_cons_self _ _) (Or.inl ht2)
        · exact Or.inl ⟨e2, hmem, ht2⟩
      · right
        unfold strip_step
        by_cases h1 : e.tag = tag_t.STRIP_OFFSETS
        · rw [if_pos h1]
          exact hc e (List.mem_cons_self _ _) (Or.inl h1)
        · rw [if_neg h1]
          by_cases h2 : e.tag = tag_t.STRIP_BYTE_COUNTS
          · rw [if_pos h2]; exact h
          · rw [if_neg h2]; exact h
    · intro h
      apply ih2
      rcases h with ⟨e2, he2, ht2⟩ | h
      · rcases List.mem_cons.mp he2 with heq | hmem
        · subst heq
          right
          have hne : e2.tag ≠ tag_t.STRIP_OFFSETS := by rw [ht2]; decide
          unfold strip_step
          rw [if_neg hne, if_pos ht2]
          exact hc e2 (List.mem_cons_self _ _) (Or.inr ht2)
        · exact Or.inl ⟨e2, hmem, ht2⟩
      · right
        unfold strip_step
        by_cases h1 : e.tag = tag_t.STRIP_OFFSETS
        · rw [if_pos h1]; exact h
        · rw [if_neg h1]
          by_cases h2 : e.tag = tag_t.STRIP_BYTE_COUNTS
          · rw [if_pos h2]
            exact hc e (List.mem_cons_self _ _) (Or.inr h2)
          · rw [if_neg h2]; exact h

/-- C13 as stated fails: this little-endian file has a valid header and one entry,
Strip Offsets with `field_count` 1; it decodes successfully (the reader is valid), and
the page has one strip offset and no strip byte count. -/
theorem strip_tables_counterexample :
    (reader.open_ demo_config inline_helpers 3 (one_entry_file 0x11 0x01 4 1 8) demo_state).map
      (fun res => (res.1.is_valid,
        res.1.pages.map (fun p => (p.strip_offsets, p.strip_byte_counts))))
      = some (true, [([8], [])]) := by
  decide

/-- C13, amended: for every file that decodes successfully (valid reader) and whose
Strip Offsets and Strip Byte Counts entries all have a `field_count` of at least 1, the
page's `strip_offsets` has as many elements as the `field_count` of the last Strip
Offsets entry of the directory and `strip_byte_counts` as many as the `field_count` of
the last Strip Byte Counts entry (the lengths of the default page where there is no such
entry); the two tables have the same length exactly when these two counts are equal, and
a table that has an entry in the directory is not empty.  The helper
`fread_array_buffering` is taken to fill a vector without resizing it. -/
theorem open_strip_table_lengths (cfg : pal_config) (hp : helpers) (hkeep : keeps_length hp)
    (handle : Int) (content : List Byte) (w : pal_state) (r : reader) (w2 : pal_state)
    (hopen : reader.open_ cfg hp handle content w = some (r, w2))
    (hvalid : r.is_valid = true)
    (hcount : ∀ e ∈ reader.first_entries cfg hp handle content w,
      (e.tag = tag_t.STRIP_OFFSETS ∨ e.tag = tag_t.STRIP_BYTE_COUNTS) → 1 ≤ e.field_count) :
    ∃ q, r.pages = [q]
      ∧ (q.strip_offsets.length, q.strip_byte_counts.length)
          = strip_table_lengths (reader.first_entries cfg hp handle content w)
              (hp.fresh_page.strip_offsets.length, hp.fresh_page.strip_byte_counts.length)
      ∧ (q.strip_offsets.length = q.strip_byte_counts.length ↔
          (strip_table_lengths (reader.first_entries cfg hp handle content w)
              (hp.fresh_page.strip_offsets.length, hp.fresh_page.strip_byte_counts.length)).1
            = (strip_table_lengths (reader.first_entries cfg hp handle content w)
              (hp.fresh_page.strip_offsets.length, hp.fresh_page.strip_byte_counts.length)).2)
      ∧ ((∃ e ∈ reader.first_entries cfg hp handle content w, e.tag = tag_t.STRIP_OFFSETS) →
          q.strip_offsets ≠ [])
      ∧ ((∃ e ∈ reader.first_entries cfg hp handle content w,
            e.tag = tag_t.STRIP_BYTE_COUNTS) → q.strip_byte_counts ≠ []) := by
  obtain ⟨rr, d, b, w0, w1, hfirst, htags⟩ :=
    open_valid_entry_tags cfg hp handle content w r w2 hopen hvalid
  obtain ⟨q, hq, hlen⟩ := read_entry_tags_strip_lengths cfg hp hkeep rr d _ w0 r.pages w1 htags
  have hlen2 : (q.strip_offsets.length, q.strip_byte_counts.length)
      = strip_table_lengths (reader.first_entries cfg hp handle content w)
          (hp.fresh_page.strip_offsets.length, hp.fresh_page.strip_byte_counts.length) := by
    rw [hfirst]; exact hlen
  obtain ⟨hpos1, hpos2⟩ := strip_table_lengths_pos
    (reader.first_entries cfg hp handle content w)
    (hp.fresh_page.strip_offsets.length, hp.fresh_page.strip_byte_counts.length) hcount
  refine ⟨q, hq, hlen2, by rw [← hlen2], ?_, ?_⟩
  · intro he hnil
    have h1 := hpos1 (Or.inl he)
    rw [← hlen2, hnil] at h1
    simp at h1
  · intro he hnil
    have h1 := hpos2 (Or.inl he)
    rw [← hlen2, hnil] at h1
    simp at h1

/-- Witness of C13, amended: `two_strip_file`, whose directory holds a Strip Offsets
entry and a Strip Byte Counts entry with `field_count` 2 each, the values read out of
line; both tables of the decoded page have two elements. -/
theorem open_strip_table_lengths_witness :
    (∀ e ∈ reader.first_entries demo_config inline_helpers 3 two_strip_file demo_state,
        (e.tag = tag_t.STRIP_OFFSETS ∨ e.tag = tag_t.STRIP_BYTE_COUNTS) → 1 ≤ e.field_count)
      ∧ (demo_open two_strip_file).1.is_valid = true
      ∧ ∃ q, (demo_open two_strip_file).1.pages = [q]
          ∧ (q.strip_offsets.length, q.strip_byte_counts.length) = (2, 2)
          ∧ q.strip_offsets.length = q.strip_byte_counts.length
          ∧ q.strip_offsets ≠ [] ∧ q.strip_byte_counts ≠ [] := by
  have hk : keeps_length inline_helpers := by
    intro r n vec buf size ptr
    simp [inline_helpers]
  have hc : ∀ e ∈ reader.first_entries demo_config inline_helpers 3 two_strip_file demo_state,
      (e.tag = tag_t.STRIP_OFFSETS ∨ e.tag = tag_t.STRIP_BYTE_COUNTS) → 1 ≤ e.field_count := by
    decide
  obtain ⟨q, h1, h2, h3, h4, h5⟩ := open_strip_table_lengths demo_config inline_helpers hk 3
    two_strip_file demo_state (demo_open two_strip_file).1 (demo_open two_strip_file).2
    (by decide) (by decide) hc
  have hl : strip_table_lengths
      (reader.first_entries demo_config inline_helpers 3 two_strip_file demo_state)
      (inline_helpers.fresh_page.strip_offsets.length,
        inline_helpers.fresh_page.strip_byte_counts.length) = (2, 2) := by
    decide
  exact ⟨hc, by decide, q, h1, by rw [h2, hl], h3.mpr (by rw [hl]),
    h4 (by decide), h5 (by decide)⟩

/-- C17, the failing input: a Strip Offsets entry (and likewise a Strip Byte Counts
entry) with `field_count` 0 and the non-zero value slot 8.  The handler succeeds, the
table is resized to no element and the store to element 0 falls outside of it, so the
table ends with no entry, not with the one inline value 8.  With `field_count` 1 the
table is `[8]`, and a value slot of 0 makes the handler fail. -/
theorem strip_handlers_zero_count :
    ((tag_manager.strip_offsets demo_config inline_helpers (reader.init 3 [])
        { tag := 273, field_type := 4, field_count := 0, data_field := 8 }
        inline_helpers.fresh_page demo_state).1,
      (tag_manager.strip_offsets demo_config inline_helpers (reader.init 3 [])
        { tag := 273, field_type := 4, field_count := 0, data_field := 8 }
        inline_helpers.fresh_page demo_state).2.1.strip_offsets) = (true, [])
    ∧ ((tag_manager.strip_byte_counts demo_config inline_helpers (reader.init 3 [])
        { tag := 279, field_type := 4, field_count := 0, data_field := 8 }
        inline_helpers.fresh_page demo_state).1,
      (tag_manager.strip_byte_counts demo_config inline_helpers (reader.init 3 [])
        { tag := 279, field_type := 4, field_count := 0, data_field := 8 }
        inline_helpers.fresh_page demo_state).2.1.strip_byte_counts) = (true, [])
    ∧ (tag_manager.strip_offsets demo_config inline_helpers (reader.init 3 [])
        { tag := 273, field_type := 4, field_count := 1, data_field := 8 }
        inline_helpers.fresh_page demo_state).2.1.strip_offsets = [8]
    ∧ (tag_manager.strip_offsets demo_config inline_helpers (reader.init 3 [])
        { tag := 273, field_type := 4, field_count := 1, data_field := 0 }
        inline_helpers.fresh_page demo_state).1 = false := by
  decide

/-! ## Resources: handle, next directory, locks (C14, C19, C20) -/

/-- C14, the failing input: a file with a valid header whose Compression entry is LZW.
The constructor leaves an invalid reader, but the handle 3 is still stored in `source`
and was never passed to `fclose`; the destructor does not close it either, since it
closes only a valid reader.  On the sibling path, a bad magic, the handle is closed and
`source` is reset. -/
theorem ctor_handle_not_released :
    (reader.open_ demo_config inline_helpers 3 (one_entry_file 0x03 0x01 3 1 5) demo_state).map
        (fun res => (res.1.is_valid, res.1.source, res.2.closed, (res.1.dtor res.2).closed))
      = some (false, 3, [], [])
    ∧ (reader.open_ demo_config inline_helpers 3 [0x58, 0x58, 42, 0, 8, 0, 0, 0] demo_state).map
        (fun res => (res.1.is_valid, res.1.source, res.2.closed))
      = some (false, 0, [3]) := by
  decide

/-- C19, the failing input: in `linked_file` the four bytes behind the only tag record,
at offset `8 + 2 + 12*1 = 22`, hold `0x01020304`; `fetch_ifds` fetches four bytes from
offset 8 again and reads `next_ifd` at the cursor, 12 bytes into the scratch buffer,
which gives 0. -/
theorem fetch_ifds_next_ifd_wrong_offset :
    (demo_reader linked_file).1.declared_val (8 + 2 + 12 * 1) 4 = 16909060
    ∧ ((demo_reader linked_file).1.fetch_ifds demo_config (demo_reader linked_file).2).1.map
        (fun d => (d.entry_count, d.next_ifd)) = [(1, 0)] := by
  decide

/-- C20, the failing input: a file whose magic is "XX".  `read_header` acquires the
scratch-buffer lock and returns on the invalid magic without releasing it: the lock is
held once more than before the call.  On the other paths (valid magic, right or wrong
version) the lock is back at its level. -/
theorem read_header_lock_not_released :
    demo_state.info_buffer_held = 0
    ∧ ((reader.init 3 [0x58, 0x58, 42, 0, 8, 0, 0, 0]).read_header demo_config
        demo_state).2.2.info_buffer_held = 1
    ∧ ((reader.init 3 [0x49, 0x49, 42, 0, 8, 0, 0, 0]).read_header demo_config
        demo_state).2.2.info_buffer_held = 0
    ∧ ((reader.init 3 [0x49, 0x49, 43, 0, 8, 0, 0, 0]).read_header demo_config
        demo_state).2.2.info_buffer_held = 0 := by
  decide

/-! ## Unpacking (C11, C15, C16, C18) -/

/-- A bit field depends only on the bits it covers. -/
theorem extract_memory_congr (buf buf2 : List Byte) (s l : Nat)
    (h : ∀ i, i < l → bitAt buf (s + i) = bitAt buf2 (s + i)) :
    extract_memory buf s l = extract_memory buf2 s l := by
  unfold extract_memory
  congr 1
  apply List.foldl_ext
  intro a i hi
  rw [h i (List.mem_range.mp hi)]

theorem bitAt_congr (buf buf2 : List Byte) (i : Nat)
    (h : buf.getD (i / 8) 0 = buf2.getD (i / 8) 0) : bitAt buf i = bitAt buf2 i := by
  unfold bitAt
  rw [h]

/-- Two buffers that agree on their first `B` bytes give the same bit field as long as
the field ends within those bytes. -/
theorem extract_memory_agree (buf buf2 : List Byte) (B s l : Nat)
    (hb : ∀ k, k < B → buf.getD k 0 = buf2.getD k 0) (hfit : s + l ≤ 8 * B) :
    extract_memory buf s l = extract_memory buf2 s l := by
  apply extract_memory_congr
  intro i hi
  apply bitAt_congr
  apply hb
  omega

/-- The unpacking loop on two buffers that agree on the bytes its fields cover. -/
theorem unpack_samples_agree (buf buf2 : List Byte) (B : Nat)
    (hb : ∀ k, k < B → buf.getD k 0 = buf2.getD k 0) :
    ∀ (bs : List Nat) (p sp : Nat) (c : color_t), sp + bs.sum ≤ 8 * B →
      unpack_samples buf bs p sp c = unpack_samples buf2 bs p sp c := by
  intro bs
  induction bs with
  | nil => intro p sp c _; rfl
  | cons b bs ih =>
    intro p sp c hfit
    simp only [List.sum_cons] at hfit
    simp only [unpack_samples]
    rw [extract_memory_agree buf buf2 B sp b hb (by omega)]
    cases color_t.set_channel c p (extract_memory buf2 sp b) with
    | none => rfl
    | some c1 =>
      simp only []
      exact ih _ _ _ (by omega)

theorem set_channel_spec (c : color_t) (p : Nat) (v : Byte) (hp : p < 4) :
    ∃ c1, c.set_channel p v = some c1
      ∧ ∀ k, k < 4 → c1.channel k = if k = p then v else c.channel k := by
  have hcases : p = 0 ∨ p = 1 ∨ p = 2 ∨ p = 3 := by omega
  rcases hcases with h | h | h | h <;> subst h <;>
    refine ⟨_, rfl, ?_⟩ <;> intro k hk <;>
    (have hk4 : k = 0 ∨ k = 1 ∨ k = 2 ∨ k = 3 := by omega) <;>
    rcases hk4 with h | h | h | h <;> subst h <;> simp [color_t.channel]

/-- The unpacking loop with at most four channels to write and fields that start below
bit 256: it succeeds, channel `p + j` receives field `j`, the field of width `bs[j]`
that starts at `sp + bs[0] + ... + bs[j-1]`, and every other channel keeps its value. -/
theorem unpack_samples_channels (buf : List Byte) :
    ∀ (bs : List Nat) (p sp : Nat) (c : color_t), p + bs.length ≤ 4 → sp + bs.sum < 256 →
      ∃ c2, unpack_samples buf bs p sp c = some c2
        ∧ ∀ k, k < 4 → c2.channel k =
            if p ≤ k ∧ k < p + bs.length
            then extract_memory buf (sp + (bs.take (k - p)).sum) (bs.getD (k - p) 0)
            else c.channel k := by
  intro bs
  induction bs with
  | nil =>
    intro p sp c _ _
    refine ⟨c, rfl, ?_⟩
    intro k _
    have : ¬ (p ≤ k ∧ k < p + ([] : List Nat).length) := by
      simp only [List.length_nil]; omega
    rw [if_neg this]
  | cons b bs ih =>
    intro p sp c hlen hsum
    simp only [List.length_cons] at hlen
    simp only [List.sum_cons] at hsum
    obtain ⟨c1, hc1, hch1⟩ := set_channel_spec c p (extract_memory buf sp b) (by omega)
    have hp1 : (p + 1) % 256 = p + 1 := by omega
    have hsp1 : (sp + b) % 256 = sp + b := by omega
    obtain ⟨c2, hc2, hch2⟩ := ih (p + 1) (sp + b) c1 (by omega) (by omega)
    refine ⟨c2, by simp only [unpack_samples, hc1, hp1, hsp1, hc2], ?_⟩
    intro k hk
    rw [hch2 k hk]
    by_cases h1 : p + 1 ≤ k ∧ k < p + 1 + bs.length
    · have h2 : p ≤ k ∧ k < p + (b :: bs).length := by
        simp only [List.length_cons]; omega
      rw [if_pos h1, if_pos h2]
      have hk1 : k - p = (k - (p + 1)) + 1 := by omega
      rw [hk1, List.take_succ_cons, List.sum_cons, List.getD_cons_succ]
      congr 1
      omega
    · rw [if_neg h1, hch1 k hk]
      by_cases h3 : k = p
      · subst h3
        have h2 : k ≤ k ∧ k < k + (b :: bs).length := by
          simp only [List.length_cons]; omega
        rw [if_pos rfl, if_pos h2]
        simp
      · have h2 : ¬ (p ≤ k ∧ k < p + (b :: bs).length) := by
          simp only [List.length_cons]; omega
        rw [if_neg h3, if_neg h2]

theorem bytesAt_getD (buf : List Byte) (pos n k : Nat) (hk : k < n) :
    (bytesAt buf pos n).getD k 0 = buf.getD (pos + k) 0 := by
  unfold bytesAt
  simp only [List.getD_eq_getElem?_getD, List.getElem?_map, List.getElem?_range hk,
    Option.map_some', Option.getD_some]

theorem unpack_samples_some (buf : List Byte) :
    ∀ (bs : List Nat) (p sp : Nat) (c : color_t), p + bs.length ≤ 4 →
      ∃ c2, unpack_samples buf bs p sp c = some c2 := by
  intro bs
  induction bs with
  | nil => intro p sp c _; exact ⟨c, rfl⟩
  | cons b bs ih =>
    intro p sp c hlen
    simp only [List.length_cons] at hlen
    obtain ⟨c1, hc1, _⟩ := set_channel_spec c p (extract_memory buf sp b) (by omega)
    have hp1 : (p + 1) % 256 = p + 1 := by omega
    obtain ⟨c2, hc2⟩ := ih (p + 1) ((sp + b) % 256) c1 (by omega)
    exact ⟨c2, by simp only [unpack_samples, hc1, hp1, hc2]⟩

/-- The scratch buffer after the fetch of a pixel agrees with the pixel's file bytes. -/
theorem fetched_agree (content dest : List Byte) (base bpp i : Nat)
    (hfile : base + i * bpp + bpp ≤ content.length) :
    ∀ k, k < bpp → (fread content (base + i * bpp) bpp dest).getD k 0
      = (pixel_bytes content base bpp i).getD k 0 := by
  intro k hk
  rw [fread_getD content dest (base + i * bpp) bpp k hk (by omega)]
  unfold pixel_bytes
  rw [bytesAt_getD _ _ _ _ hk]

/-- The per-pixel loop of the general path: pixels `i .. i+k-1` of the output become
what `general_pixel` makes of their file bytes and their previous colour; the other
elements stay. -/
theorem get_pixels_general_spec (content : List Byte) (p : page) (base : Nat)
    (hn : p.bit_per_samples.length ≤ 4)
    (hbits : p.bit_per_samples.sum ≤ 8 * p.byte_per_pixel) :
    ∀ (k i : Nat) (pixs : List color_t) (w : pal_state), i + k ≤ pixs.length →
      (∀ j, i ≤ j → j < i + k → base + j * p.byte_per_pixel + p.byte_per_pixel ≤ content.length) →
      ∃ out w2, page.get_pixels_general content p (some base) k i pixs w = some (out, w2)
        ∧ out.length = pixs.length
        ∧ w2.info_buffer_held = w.info_buffer_held
        ∧ ∀ j, out[j]? = if i ≤ j ∧ j < i + k
            then (pixs[j]?).bind (general_pixel content p base j) else pixs[j]? := by
  intro k
  induction k with
  | zero =>
    intro i pixs w _ _
    refine ⟨pixs, w, rfl, rfl, rfl, ?_⟩
    intro j
    have : ¬ (i ≤ j ∧ j < i + 0) := by omega
    rw [if_neg this]
  | succ k ih =>
    intro i pixs w hlen hfile
    have hi : i < pixs.length := by omega
    have hpi : pixs[i]? = some pixs[i] := List.getElem?_eq_getElem hi
    have hag := unpack_samples_agree
      (fread content (base + i * p.byte_per_pixel) p.byte_per_pixel w.info_buffer)
      (pixel_bytes content base p.byte_per_pixel i) p.byte_per_pixel
      (fetched_agree content w.info_buffer base p.byte_per_pixel i (hfile i (Nat.le_refl _) (by omega)))
      p.bit_per_samples 0 0 pixs[i] (by omega)
    obtain ⟨c1, hc1⟩ := unpack_samples_some (pixel_bytes content base p.byte_per_pixel i)
      p.bit_per_samples 0 0 pixs[i] (by omega)
    obtain ⟨out, w2, hout, hl, hheld, hget⟩ := ih (i + 1) (pixs.set i c1)
      { w with info_buffer :=
          fread content (base + i * p.byte_per_pixel) p.byte_per_pixel w.info_buffer }
      (by simp only [List.length_set]; omega)
      (fun j h1 h2 => hfile j (by omega) (by omega))
    refine ⟨out, w2, ?_, by simpa using hl, hheld, ?_⟩
    · simp only [page.get_pixels_general, hpi, hag, hc1, hout]
    · intro j
      rw [hget j]
      by_cases hj : j = i
      · subst hj
        have h1 : ¬ (j + 1 ≤ j ∧ j < j + 1 + k) := by omega
        have h2 : j ≤ j ∧ j < j + (k + 1) := by omega
        rw [if_neg h1, if_pos h2, List.getElem?_set_self hi, hpi]
        simp only [Option.some_bind, general_pixel, hc1]
      · have hne : (pixs.set i c1)[j]? = pixs[j]? := List.getElem?_set_ne (Ne.symm hj)
        rw [hne]
        by_cases h1 : i + 1 ≤ j ∧ j < i + 1 + k
        · have h2 : i ≤ j ∧ j < i + (k + 1) := by omega
          rw [if_pos h1, if_pos h2]
        · have h2 : ¬ (i ≤ j ∧ j < i + (k + 1)) := by omega
          rw [if_neg h1, if_neg h2]

/-- The per-pixel loop of the 2-sample path: pixels `i .. i+k-1` of the output become
`gray_alpha_pixel` of their file bytes; the other elements stay. -/
theorem get_pixels_gray_alpha_spec (content : List Byte) (p : page) (base b0 : Nat)
    (rest : List Nat) (hbps : p.bit_per_samples = b0 :: rest)
    (hbits : 2 * b0 ≤ 8 * p.byte_per_pixel) :
    ∀ (k i : Nat) (pixs : List color_t) (w : pal_state), i + k ≤ pixs.length →
      (∀ j, i ≤ j → j < i + k → base + j * p.byte_per_pixel + p.byte_per_pixel ≤ content.length) →
      ∃ out w2, page.get_pixels_gray_alpha content p (some base) k i pixs w = some (out, w2)
        ∧ out.length = pixs.length
        ∧ ∀ j, out[j]? = if i ≤ j ∧ j < i + k
            then (pixs[j]?).map (fun _ => gray_alpha_pixel content p base b0 j) else pixs[j]? := by
  intro k
  induction k with
  | zero =>
    intro i pixs w _ _
    refine ⟨pixs, w, rfl, rfl, ?_⟩
    intro j
    have : ¬ (i ≤ j ∧ j < i + 0) := by omega
    rw [if_neg this]
  | succ k ih =>
    intro i pixs w hlen hfile
    have hi : i < pixs.length := by omega
    have hpi : pixs[i]? = some pixs[i] := List.getElem?_eq_getElem hi
    have hag := fetched_agree content w.info_buffer base p.byte_per_pixel i
      (hfile i (Nat.le_refl _) (by omega))
    have hg := extract_memory_agree
      (fread content (base + i * p.byte_per_pixel) p.byte_per_pixel w.info_buffer)
      (pixel_bytes content base p.byte_per_pixel i) p.byte_per_pixel 0 b0 hag (by omega)
    have ha := extract_memory_agree
      (fread content (base + i * p.byte_per_pixel) p.byte_per_pixel w.info_buffer)
      (pixel_bytes content base p.byte_per_pixel i) p.byte_per_pixel b0 b0 hag (by omega)
    obtain ⟨out, w2, hout, hl, hget⟩ := ih (i + 1)
      (pixs.set i (gray_alpha_pixel content p base b0 i))
      { w with info_buffer :=
          fread content (base + i * p.byte_per_pixel) p.byte_per_pixel w.info_buffer }
      (by simp only [List.length_set]; omega)
      (fun j h1 h2 => hfile j (by omega) (by omega))
    refine ⟨out, w2, ?_, by simpa using hl, ?_⟩
    · simp only [page.get_pixels_gray_alpha, hbps, List.head?_cons, hpi, hg, ha]
      exact hout
    · intro j
      rw [hget j]
      by_cases hj : j = i
      · subst hj
        have h1 : ¬ (j + 1 ≤ j ∧ j < j + 1 + k) := by omega
        have h2 : j ≤ j ∧ j < j + (k + 1) := by omega
        rw [if_neg h1, if_pos h2, List.getElem?_set_self hi, hpi]
        rfl
      · have hne : (pixs.set i (gray_alpha_pixel content p base b0 i))[j]? = pixs[j]? :=
          List.getElem?_set_ne (Ne.symm hj)
        rw [hne]
        by_cases h1 : i + 1 ≤ j ∧ j < i + 1 + k
        · have h2 : i ≤ j ∧ j < i + (k + 1) := by omega
          rw [if_pos h1, if_pos h2]
        · have h2 : ¬ (i ≤ j ∧ j < i + (k + 1)) := by omega
          rw [if_neg h1, if_neg h2]

/-- The 2-sample path on two equal depths: for every page with
`samples_per_pixel = 2`, colorspace grayscale
black-zero and two equal declared depths `[b0, b0]` that fit the bytes of a pixel (the
`l` pixels lying inside the file, the output array holding at least `l` elements),
`get_pixels` returns `l` and sets, for each of the `l` requested pixels, r = g = b = the
first sample (the `b0`-bit field at bit 0 of that pixel's bytes) and a = the second
sample (the `b0`-bit field that starts at bit `b0`), which, for depths below 128 bits,
is the value the general path assigns to its second channel. -/
theorem get_pixels_gray_alpha_channels (content : List Byte) (p : page) (x y l : Nat)
    (pixs : List color_t) (w : pal_state) (off b0 : Nat)
    (hspp : p.sample_per_pixel = 2) (hcs : p.colorspace = colorspace_t.MINISBLACK)
    (hbps : p.bit_per_samples = [b0, b0])
    (hbits : 2 * b0 ≤ 8 * p.byte_per_pixel)
    (hoff : p.strip_offsets[(p.locate x y).1]? = some off)
    (hfile : ∀ i, i < l → (off + (p.locate x y).2) % 4294967296 + i * p.byte_per_pixel
      + p.byte_per_pixel ≤ content.length)
    (hl : l ≤ pixs.length) :
    ∃ out w2, p.get_pixels content x y l pixs w = some (l, out, w2)
      ∧ out.length = pixs.length
      ∧ ∀ i, i < l → ∃ c2, out[i]? = some c2
          ∧ c2.r = extract_memory
              (pixel_bytes content ((off + (p.locate x y).2) % 4294967296) p.byte_per_pixel i) 0 b0
          ∧ c2.g = c2.r ∧ c2.b = c2.r
          ∧ c2.a = extract_memory
              (pixel_bytes content ((off + (p.locate x y).2) % 4294967296) p.byte_per_pixel i)
              b0 (p.bit_per_samples.getD 1 0)
          ∧ (2 * b0 < 256 → ∀ c0, ∃ cg, unpack_samples
              (pixel_bytes content ((off + (p.locate x y).2) % 4294967296) p.byte_per_pixel i)
              p.bit_per_samples 0 0 c0 = some cg ∧ cg.g = c2.a) := by
  obtain ⟨out, w2, hout, hlen, hget⟩ := get_pixels_gray_alpha_spec content p
    ((off + (p.locate x y).2) % 4294967296) b0 [b0] hbps hbits l 0 pixs (info_buffer_lock w)
    (by omega) (fun j _ h2 => hfile j (by omega))
  have hnf : ¬ (p.bit_per_samples = [8, 8, 8, 8] ∧ p.sample_per_pixel = 4
      ∧ p.colorspace = colorspace_t.RGB) := by
    intro h
    rw [hspp] at h
    exact absurd h.2.1 (by decide)
  refine ⟨out, info_buffer_unlock w2, ?_, hlen, ?_⟩
  · unfold page.get_pixels
    simp only [hoff, Option.map_some', hnf, if_false]
    simp only [hspp, hcs, and_self, if_true, hout]
  · intro i hi
    have hgi := hget i
    have h1 : 0 ≤ i ∧ i < 0 + l := by omega
    have hpi : pixs[i]? = some pixs[i] := List.getElem?_eq_getElem (by omega)
    rw [if_pos h1, hpi] at hgi
    simp only [Option.map_some'] at hgi
    refine ⟨_, hgi, rfl, rfl, rfl, ?_, ?_⟩
    · rw [hbps]
      rfl
    · intro h256 c0
      obtain ⟨cg, hcg, hch⟩ := unpack_samples_channels
        (pixel_bytes content ((off + (p.locate x y).2) % 4294967296) p.byte_per_pixel i)
        [b0, b0] 0 0 c0 (by simp) (by simp only [List.sum_cons, List.sum_nil]; omega)
      refine ⟨cg, by rw [hbps]; exact hcg, ?_⟩
      have h := hch 1 (by decide)
      simp only [color_t.channel] at h
      rw [h]
      simp [gray_alpha_pixel]

/-- Both pixels of a page with two samples of 8 bits, through the 2-sample path. -/
theorem get_pixels_gray_alpha_channels_witness :
    ∃ out w2, (gray_page 8 8 2).get_pixels gray_file 0 0 2 [color_t.zero, color_t.zero]
        demo_state = some (2, out, w2)
      ∧ out = [{ r := 0xAB, g := 0xAB, b := 0xAB, a := 0xCD },
               { r := 0x12, g := 0x12, b := 0x12, a := 0x34 }] := by
  obtain ⟨out, w2, h1, _, _⟩ := get_pixels_gray_alpha_channels gray_file (gray_page 8 8 2) 0 0 2
    [color_t.zero, color_t.zero] demo_state 8 8 rfl rfl rfl (by decide) (by decide)
    (by decide) (by decide)
  refine ⟨out, w2, h1, ?_⟩
  have h2 : ((gray_page 8 8 2).get_pixels gray_file 0 0 2 [color_t.zero, color_t.zero]
      demo_state).map (fun res => res.2.1)
      = some [{ r := 0xAB, g := 0xAB, b := 0xAB, a := 0xCD },
              { r := 0x12, g := 0x12, b := 0x12, a := 0x34 }] := by
    decide
  rw [h1] at h2
  simpa using h2

/-- The unpacking loop on a buffer whose first bytes are the file bytes of a pixel. -/
theorem unpack_of_agree (content : List Byte) (p : page) (base : Nat) (buf : List Byte)
    (c : color_t) (hbits : p.bit_per_samples.sum ≤ 8 * p.byte_per_pixel)
    (h : ∀ k, k < p.byte_per_pixel → buf.getD k 0 = content.getD (base + k) 0) :
    unpack_samples buf p.bit_per_samples 0 0 c = general_pixel content p base 0 c := by
  unfold general_pixel
  apply unpack_samples_agree buf _ p.byte_per_pixel _ _ _ _ _ (by omega)
  intro k hk
  rw [h k hk]
  unfold pixel_bytes
  rw [bytesAt_getD _ _ _ _ hk, Nat.zero_mul, Nat.add_zero]

/-- The window of a slot that holds its file range, read at the offset of a pixel that
lies inside the window, gives the file bytes of the pixel. -/
theorem window_agree (content : List Byte) (p : page) (st : pix_buffer_static)
    (buf : List Byte) (off ptr n : Nat)
    (hholds : window_holds content p st buf)
    (hoff : p.strip_offsets.getD st.strip 0 = off)
    (hstart : st.start ≤ ptr) (hspan : ptr + n ≤ st.start + st.len)
    (hwrap : off + ptr < 4294967296) :
    ∀ k, k < n → (buf.drop (ptr - st.start)).getD k 0
      = content.getD ((off + ptr) % 4294967296 + k) 0 := by
  intro k hk
  have hj := hholds (ptr - st.start + k) (by omega)
  rw [hoff] at hj
  have hm1 : (off + st.start) % 4294967296 = off + st.start := by omega
  have hm2 : (off + ptr) % 4294967296 = off + ptr := by omega
  rw [hm1] at hj
  rw [hm2]
  simp only [List.getD_eq_getElem?_getD, List.getElem?_drop] at hj ⊢
  rw [hj]
  congr 2
  omega

/-- One pixel through `get_pixels`, outside the 2-sample path, into a zero-initialised
colour: what `general_pixel` makes of the file bytes of the pixel. -/
theorem get_pixels_one (content : List Byte) (p : page) (x y : Nat) (w : pal_state)
    (off : Nat) (c : color_t)
    (hng : ¬ (p.sample_per_pixel = 2 ∧ p.colorspace = colorspace_t.MINISBLACK))
    (hn : p.bit_per_samples.length ≤ 4)
    (hbits : p.bit_per_samples.sum ≤ 8 * p.byte_per_pixel)
    (hoff : p.strip_offsets[(p.locate x y).1]? = some off)
    (hfile : (off + (p.locate x y).2) % 4294967296 + p.byte_per_pixel ≤ content.length)
    (hc : general_pixel content p ((off + (p.locate x y).2) % 4294967296) 0 color_t.zero
      = some c) :
    ∃ w2, p.get_pixels content x y 1 [color_t.zero] w = some (1, [c], w2) := by
  by_cases hf : p.bit_per_samples = [8, 8, 8, 8] ∧ p.sample_per_pixel = 4
      ∧ p.colorspace = colorspace_t.RGB
  · have hb4 : 4 ≤ p.byte_per_pixel := by
      have := hbits
      rw [hf.1] at this
      simp only [List.sum_cons, List.sum_nil] at this
      omega
    have hcol : c = color_at content ((off + (p.locate x y).2) % 4294967296) := by
      have h1 := unpack_rgba content
        (pixel_bytes content ((off + (p.locate x y).2) % 4294967296) p.byte_per_pixel 0)
        ((off + (p.locate x y).2) % 4294967296) color_t.zero
        (fun k hk => by
          unfold pixel_bytes
          rw [bytesAt_getD _ _ _ _ (by omega), Nat.zero_mul, Nat.add_zero])
      unfold general_pixel at hc
      rw [hf.1, h1] at hc
      exact (Option.some.inj hc).symm
    rw [hcol]
    exact ⟨w, get_pixels_fast_one content p x y color_t.zero w off hf.1 hf.2.1 hf.2.2 hoff
      (by omega)⟩
  · obtain ⟨out, w2, hout, hlen, _, hget⟩ := get_pixels_general_spec content p
      ((off + (p.locate x y).2) % 4294967296) hn hbits 1 0 [color_t.zero] (info_buffer_lock w)
      (by simp) (fun j h1 h2 => by
        have : j = 0 := by omega
        subst this
        omega)
    have h0 := hget 0
    simp only [Nat.le_refl, Nat.zero_add, Nat.lt_one_iff, and_self, if_true,
      List.getElem?_cons_zero, Option.some_bind, hc] at h0
    have hout1 : out = [c] := by
      match out, hlen, h0 with
      | [x], _, hx =>
        simp only [List.getElem?_cons_zero, Option.some.injEq] at hx
        rw [hx]
    refine ⟨info_buffer_unlock w2, ?_⟩
    unfold page.get_pixels
    simp only [hoff, Option.map_some', hf, hng, if_false, hout, hout1]

/-- C11, the failing input: `gray_cached_page` has two samples of 8 bits, grayscale
black-zero, and in `gray_state_after_load` its slot caches the 4 bytes of its strip,
a copy of the file.  The request for the in-image pixel (1, 0), offset 2, is served
from that window; `get_pixel` unpacks the two samples into r and g, `(0x12,0x34,0,0)`,
while `get_pixels` takes its 2-sample path and gives `(0x12,0x12,0x12,0x34)`. -/
theorem get_pixel_hit_gray_alpha :
    gray_state_after_load.pix_buffer_statics[0]?
        = some { in_use := true, strip := 0, start := 0, len := 4 }
      ∧ (gray_state_after_load.pix_buffer[0]?).map (fun b => b.take 4)
        = some [0xAB, 0xCD, 0x12, 0x34]
      ∧ (gray_cached_page.locate 1 0) = (0, 2)
      ∧ (gray_cached_page.get_pixel demo_config gray_file 1 0 gray_state_after_load).map Prod.fst
        = some { r := 0x12, g := 0x34, b := 0, a := 0 }
      ∧ (gray_cached_page.get_pixels gray_file 1 0 1 [color_t.zero] gray_state_after_load).map
        (fun res => res.2.1) = some [{ r := 0x12, g := 0x12, b := 0x12, a := 0x34 }] := by
  decide

/-- Where both accessors unpack alike the cache is transparent: for every page outside
the 2-sample grayscale path with at most four
declared depths that fit the bytes of a pixel, and every coordinate whose pixel lies
inside the file, a `get_pixel(x,y)` call that is served from the cached window returns
the same colour as `get_pixels(x,y,1,&c)` into a zero-initialised `c`, provided the
window is a copy of the file range that its slot records and reaches to the end of the
pixel. -/
theorem get_pixel_hit_eq_get_pixels (cfg : pal_config) (content : List Byte) (p : page)
    (x y : Nat) (w : pal_state) (off id : Nat) (st : pix_buffer_static) (buf : List Byte)
    (hng : ¬ (p.sample_per_pixel = 2 ∧ p.colorspace = colorspace_t.MINISBLACK))
    (hn : p.bit_per_samples.length ≤ 4)
    (hbits : p.bit_per_samples.sum ≤ 8 * p.byte_per_pixel)
    (hid : p.buffer_id = (id : Int))
    (hst : w.pix_buffer_statics[id]? = some st) (hbuf : w.pix_buffer[id]? = some buf)
    (hhit : st.strip = (p.locate x y).1 ∧ st.start ≤ (p.locate x y).2
      ∧ st.start + st.len > (p.locate x y).2)
    (hholds : window_holds content p st buf)
    (hspan : (p.locate x y).2 + p.byte_per_pixel ≤ st.start + st.len)
    (hoff : p.strip_offsets[(p.locate x y).1]? = some off)
    (hwrap : off + (p.locate x y).2 < 4294967296)
    (hfile : off + (p.locate x y).2 + p.byte_per_pixel ≤ content.length) :
    ∃ c w1 w2, p.get_pixel cfg content x y w = some (c, w1)
      ∧ p.get_pixels content x y 1 [color_t.zero] w = some (1, [c], w2) := by
  have hm : (off + (p.locate x y).2) % 4294967296 = off + (p.locate x y).2 := by omega
  obtain ⟨c, hc⟩ := unpack_samples_some
    (pixel_bytes content ((off + (p.locate x y).2) % 4294967296) p.byte_per_pixel 0)
    p.bit_per_samples 0 0 color_t.zero (by omega)
  have hgp : general_pixel content p ((off + (p.locate x y).2) % 4294967296) 0 color_t.zero
      = some c := hc
  obtain ⟨w2, hw2⟩ := get_pixels_one content p x y w off c hng hn hbits hoff (by omega) hgp
  have hoffD : p.strip_offsets.getD st.strip 0 = off := by
    rw [List.getD_eq_getElem?_getD, hhit.1, hoff]; rfl
  have hwin := unpack_of_agree content p ((off + (p.locate x y).2) % 4294967296)
    (buf.drop ((p.locate x y).2 - st.start)) color_t.zero hbits
    (window_agree content p st buf off (p.locate x y).2 p.byte_per_pixel hholds hoffD
      hhit.2.1 hspan hwrap)
  have h1 : ¬ p.buffer_id = -1 := by omega
  have h2 : ¬ p.buffer_id < 0 := by omega
  have h3 : p.buffer_id.toNat = id := by omega
  have hst1 : (pix_buffer_lock w).pix_buffer_statics[id]? = some st := hst
  have hbuf1 : (pix_buffer_lock w).pix_buffer[id]? = some buf := hbuf
  refine ⟨c, pix_buffer_unlock (pix_buffer_lock w), w2, ?_, hw2⟩
  unfold page.get_pixel
  simp only [h1, h2, h3, if_false, hst1, hbuf1, hhit, and_self, if_true, hwin, hgp]

/-- An instance of the transparent hit: a 3 × 8 bit RGB page whose slot caches the whole
strip. -/
theorem get_pixel_hit_eq_get_pixels_witness :
    ∃ c w1 w2, (rgb_page 0).get_pixel demo_config rgba_file 1 0
        { demo_state_slot0 with
          pix_buffer := [[10, 20, 30, 40, 50, 60, 0, 0, 0, 0, 0, 0, 0, 0, 0, 0],
                         List.replicate 16 0]
          pix_buffer_statics := [{ in_use := true, strip := 0, start := 0, len := 6 },
                                 { in_use := false, strip := 0, start := 0, len := 0 }] }
        = some (c, w1)
      ∧ (rgb_page 0).get_pixels rgba_file 1 0 1 [color_t.zero]
        { demo_state_slot0 with
          pix_buffer := [[10, 20, 30, 40, 50, 60, 0, 0, 0, 0, 0, 0, 0, 0, 0, 0],
                         List.replicate 16 0]
          pix_buffer_statics := [{ in_use := true, strip := 0, start := 0, len := 6 },
                                 { in_use := false, strip := 0, start := 0, len := 0 }] }
        = some (1, [c], w2) :=
  get_pixel_hit_eq_get_pixels demo_config rgba_file (rgb_page 0) 1 0 _ 8 0
    { in_use := true, strip := 0, start := 0, len := 6 }
    [10, 20, 30, 40, 50, 60, 0, 0, 0, 0, 0, 0, 0, 0, 0, 0]
    (by decide) (by decide) (by decide) rfl rfl rfl (by decide)
    (by
      intro j hj
      have hj6 : j < 6 := hj
      have hcases : j = 0 ∨ j = 1 ∨ j = 2 ∨ j = 3 ∨ j = 4 ∨ j = 5 := by omega
      rcases hcases with h | h | h | h | h | h <;> subst h <;> decide)
    (by decide) (by decide) (by decide) (by decide)

/-- The unbuffered single-pixel fetch: what `general_pixel` makes of the file bytes. -/
theorem get_pixel_without_buffering_general (content : List Byte) (p : page) (x y : Nat)
    (w : pal_state) (off : Nat) (c : color_t)
    (hbits : p.bit_per_samples.sum ≤ 8 * p.byte_per_pixel)
    (hoff : p.strip_offsets[(p.locate x y).1]? = some off)
    (hfile : (off + (p.locate x y).2) % 4294967296 + p.byte_per_pixel ≤ content.length)
    (hc : general_pixel content p ((off + (p.locate x y).2) % 4294967296) 0 color_t.zero
      = some c) :
    ∃ w2, p.get_pixel_without_buffering content x y w = some (c, w2) := by
  have hag := unpack_of_agree content p ((off + (p.locate x y).2) % 4294967296)
    (fread content ((off + (p.locate x y).2) % 4294967296) p.byte_per_pixel
      (info_buffer_lock w).info_buffer) color_t.zero hbits
    (fun k hk => fread_getD content _ _ p.byte_per_pixel k hk (by omega))
  refine ⟨info_buffer_unlock { (info_buffer_lock w) with
    info_buffer := fread content ((off + (p.locate x y).2) % 4294967296) p.byte_per_pixel
      (info_buffer_lock w).info_buffer }, ?_⟩
  unfold page.get_pixel_without_buffering
  simp only [hoff, hag, hc]

/-- C18, the failing input: `rgb6_page`, a well-formed page of six RGB pixels of 3
bytes, under a window size of 16 bytes.  After `get_pixel(0,0)` the slot caches the
strip bytes 0..15.  The request for the in-image pixel (5, 0), offset 15, passes the hit
test, but only the first of its three bytes lies in the window: `get_pixel` returns
`(116,0,0)`, `get_pixel_without_buffering` returns the pixel of the file,
`(116,117,118)`. -/
theorem get_pixel_hit_beyond_window :
    rgb6_state_after_load.pix_buffer_statics[0]?
        = some { in_use := true, strip := 0, start := 0, len := 16 }
      ∧ (rgb6_page.locate 5 0) = (0, 15)
      ∧ (rgb6_page.get_pixel demo_config rgb6_file 5 0 rgb6_state_after_load).map Prod.fst
        = some { r := 116, g := 0, b := 0, a := 0 }
      ∧ (rgb6_page.get_pixel_without_buffering rgb6_file 5 0 rgb6_state_after_load).map Prod.fst
        = some { r := 116, g := 117, b := 118, a := 0 }
      ∧ (rgb6_page.get_pixel demo_config rgb6_file 5 0 demo_state_slot0).map Prod.fst
        = some { r := 116, g := 117, b := 118, a := 0 } := by
  decide

/-- Where the serving window spans the pixel the cache is transparent: for every page
holding a cache slot, with at most four declared
depths that fit the bytes of a pixel, every slot state whose window is a copy of the
file range it records, and every coordinate whose pixel lies inside the file,
`get_pixel(x,y)` returns the colour that `get_pixel_without_buffering(x,y)` returns,
whether the request hits the cached window or misses and reloads it, provided the
serving window reaches to the end of the pixel (on a hit the cached one, on a miss the
reloaded one of `min(PIX_BUF_SIZE, strip_byte_counts[strip] - offset)` bytes, lying
inside the file); and afterwards the window of the slot is again a copy of the file
range it records, so the same holds for every later call. -/
theorem get_pixel_eq_without_buffering (cfg : pal_config) (content : List Byte) (p : page)
    (x y : Nat) (w : pal_state) (off id : Nat) (st : pix_buffer_static) (buf : List Byte)
    (hn : p.bit_per_samples.length ≤ 4)
    (hbits : p.bit_per_samples.sum ≤ 8 * p.byte_per_pixel)
    (hid : p.buffer_id = (id : Int))
    (hst : w.pix_buffer_statics[id]? = some st) (hbuf : w.pix_buffer[id]? = some buf)
    (hholds : window_holds content p st buf)
    (hoff : p.strip_offsets[(p.locate x y).1]? = some off)
    (hfile : (off + (p.locate x y).2) % 4294967296 + p.byte_per_pixel ≤ content.length)
    (hserve : ((st.strip = (p.locate x y).1 ∧ st.start ≤ (p.locate x y).2
          ∧ st.start + st.len > (p.locate x y).2)
        ∧ (p.locate x y).2 + p.byte_per_pixel ≤ st.start + st.len
        ∧ off + (p.locate x y).2 < 4294967296)
      ∨ (¬ (st.strip = (p.locate x y).1 ∧ st.start ≤ (p.locate x y).2
          ∧ st.start + st.len > (p.locate x y).2)
        ∧ ∃ cnt, p.strip_byte_counts[(p.locate x y).1]? = some cnt
          ∧ p.byte_per_pixel ≤ reload_size cfg cnt (p.locate x y).2
          ∧ (off + (p.locate x y).2) % 4294967296 + reload_size cfg cnt (p.locate x y).2
              ≤ content.length)) :
    ∃ c w1 w2, p.get_pixel cfg content x y w = some (c, w1)
      ∧ p.get_pixel_without_buffering content x y w = some (c, w2)
      ∧ ∃ st2 buf2, w1.pix_buffer_statics[id]? = some st2 ∧ w1.pix_buffer[id]? = some buf2
          ∧ window_holds content p st2 buf2 := by
  obtain ⟨c, hc⟩ := unpack_samples_some
    (pixel_bytes content ((off + (p.locate x y).2) % 4294967296) p.byte_per_pixel 0)
    p.bit_per_samples 0 0 color_t.zero (by omega)
  have hgp : general_pixel content p ((off + (p.locate x y).2) % 4294967296) 0 color_t.zero
      = some c := hc
  obtain ⟨w2, hw2⟩ := get_pixel_without_buffering_general content p x y w off c hbits hoff
    hfile hgp
  have h1 : ¬ p.buffer_id = -1 := by omega
  have h2 : ¬ p.buffer_id < 0 := by omega
  have h3 : p.buffer_id.toNat = id := by omega
  have hst1 : (pix_buffer_lock w).pix_buffer_statics[id]? = some st := hst
  have hbuf1 : (pix_buffer_lock w).pix_buffer[id]? = some buf := hbuf
  rcases hserve with ⟨hhit, hspan, hwrap⟩ | ⟨hmiss, cnt, hcnt, hsize, hwfile⟩
  · have hoffD : p.strip_offsets.getD st.strip 0 = off := by
      rw [List.getD_eq_getElem?_getD, hhit.1, hoff]; rfl
    have hwin := unpack_of_agree content p ((off + (p.locate x y).2) % 4294967296)
      (buf.drop ((p.locate x y).2 - st.start)) color_t.zero hbits
      (window_agree content p st buf off (p.locate x y).2 p.byte_per_pixel hholds hoffD
        hhit.2.1 hspan hwrap)
    refine ⟨c, pix_buffer_unlock (pix_buffer_lock w), w2, ?_, hw2, st, buf, hst, hbuf, hholds⟩
    unfold page.get_pixel
    simp only [h1, h2, h3, if_false, hst1, hbuf1, hhit, and_self, if_true, hwin, hgp]
  · have hwin := unpack_of_agree content p ((off + (p.locate x y).2) % 4294967296)
      (fread content ((off + (p.locate x y).2) % 4294967296)
        (reload_size cfg cnt (p.locate x y).2) buf) color_t.zero hbits
      (fun k hk => fread_getD content _ _ _ k (by omega) (by omega))
    have hidS : id < w.pix_buffer_statics.length := by
      rcases Nat.lt_or_ge id w.pix_buffer_statics.length with h | h
      · exact h
      · rw [List.getElem?_eq_none h] at hst; cases hst
    have hidB : id < w.pix_buffer.length := by
      rcases Nat.lt_or_ge id w.pix_buffer.length with h | h
      · exact h
      · rw [List.getElem?_eq_none h] at hbuf; cases hbuf
    refine ⟨c, pix_buffer_unlock { (pix_buffer_lock w) with
        pix_buffer := (pix_buffer_lock w).pix_buffer.set id
          (fread content ((off + (p.locate x y).2) % 4294967296)
            (reload_size cfg cnt (p.locate x y).2) buf)
        pix_buffer_statics := (pix_buffer_lock w).pix_buffer_statics.set id
          { st with strip := (p.locate x y).1, start := (p.locate x y).2,
                    len := reload_size cfg cnt (p.locate x y).2 } }, w2, ?_, hw2,
      { st with strip := (p.locate x y).1, start := (p.locate x y).2,
                len := reload_size cfg cnt (p.locate x y).2 },
      fread content ((off + (p.locate x y).2) % 4294967296)
        (reload_size cfg cnt (p.locate x y).2) buf, ?_, ?_, ?_⟩
    · unfold page.get_pixel
      unfold reload_size at hwin
      simp only [h1, h2, h3, if_false, hst1, hbuf1, hmiss, hcnt, hoff, hwin, hgp, reload_size]
    · simp only [pix_buffer_unlock, pix_buffer_lock, reload_size]
      rw [List.getElem?_set_self hidS]
    · simp only [pix_buffer_unlock, pix_buffer_lock, reload_size]
      rw [List.getElem?_set_self hidB]
    · intro j hj
      have hoffD : p.strip_offsets.getD (p.locate x y).1 0 = off := by
        rw [List.getD_eq_getElem?_getD, hoff]; rfl
      simp only [hoffD]
      exact fread_getD content buf _ _ j hj (by
        have hj2 : j < reload_size cfg cnt (p.locate x y).2 := hj
        omega)

/-- An instance of the transparent case: the page `rgba_page 8 0`, whose strip table
covers both of
its pixels, right after the reservation of slot 0; the request for (1, 0) misses and
reloads a window of 4 bytes. -/
theorem get_pixel_eq_without_buffering_witness :
    ∃ c w1 w2, (rgba_page 8 0).get_pixel demo_config rgba_file 1 0 demo_state_slot0 = some (c, w1)
      ∧ (rgba_page 8 0).get_pixel_without_buffering rgba_file 1 0 demo_state_slot0 = some (c, w2)
      ∧ ∃ st2 buf2, w1.pix_buffer_statics[0]? = some st2 ∧ w1.pix_buffer[0]? = some buf2
          ∧ window_holds rgba_file (rgba_page 8 0) st2 buf2 :=
  get_pixel_eq_without_buffering demo_config rgba_file (rgba_page 8 0) 1 0 demo_state_slot0 8 0
    { in_use := true, strip := 0, start := 0, len := 0 } (List.replicate 16 0)
    (by decide) (by decide) rfl rfl rfl
    (by intro j hj; exact absurd hj (Nat.not_lt_zero j))
    (by decide) (by decide)
    (Or.inr ⟨by decide, 8, by decide, by decide, by decide⟩)

/-! ## Slot release and pixel size (C21, C22) -/

/-- An `id` inside the pool: `release_page_id` clears the `in_use` flag of that slot and
changes nothing else; an `id` at or above `PIX_BUF_COUNT` changes nothing; a negative
`id` reaches the store with an index outside the array. -/
theorem release_page_id_spec (cfg : pal_config) (w : pal_state) (id : Int)
    (hc : cfg.PIX_BUF_COUNT < 2147483648)
    (hpool : w.pix_buffer_statics.length = cfg.PIX_BUF_COUNT) :
    (0 ≤ id → id < cfg.PIX_BUF_COUNT →
      ∃ w2, page.release_page_id cfg id w = some w2
        ∧ w2.pix_buffer_statics.length = w.pix_buffer_statics.length
        ∧ (w2.pix_buffer_statics[id.toNat]?).map (fun s => s.in_use) = some false
        ∧ (w2.pix_buffer_statics[id.toNat]?).map (fun s => (s.strip, s.start, s.len))
            = (w.pix_buffer_statics[id.toNat]?).map (fun s => (s.strip, s.start, s.len))
        ∧ (∀ j, j ≠ id.toNat → w2.pix_buffer_statics[j]? = w.pix_buffer_statics[j]?)
        ∧ w2.pix_buffer = w.pix_buffer ∧ w2.info_buffer = w.info_buffer
        ∧ w2.info_buffer_held = w.info_buffer_held ∧ w2.pix_buffer_held = w.pix_buffer_held
        ∧ w2.closed = w.closed)
    ∧ ((cfg.PIX_BUF_COUNT : Int) ≤ id → page.release_page_id cfg id w = some w)
    ∧ (id < 0 → page.release_page_id cfg id w = none) := by
  have hcast : static_cast_int32 cfg.PIX_BUF_COUNT = (cfg.PIX_BUF_COUNT : Int) := by
    unfold static_cast_int32
    omega
  refine ⟨?_, ?_, ?_⟩
  · intro h0 hlt
    have hn : id.toNat < w.pix_buffer_statics.length := by omega
    have hnot : ¬ id ≥ static_cast_int32 cfg.PIX_BUF_COUNT := by rw [hcast]; omega
    unfold page.release_page_id
    rw [if_neg hnot, if_pos h0, List.getElem?_eq_getElem hn]
    refine ⟨_, rfl, ?_, ?_, ?_, ?_, rfl, rfl, rfl, rfl, rfl⟩
    · simp
    · simp [List.getElem?_set, hn]
    · simp [List.getElem?_set, hn]
    · intro j hj
      simp only []
      rw [List.getElem?_set_ne (Ne.symm hj)]
  · intro hge
    unfold page.release_page_id
    rw [if_pos (by rw [hcast]; exact hge)]
  · intro hneg
    have hnot : ¬ id ≥ static_cast_int32 cfg.PIX_BUF_COUNT := by rw [hcast]; omega
    unfold page.release_page_id
    rw [if_neg hnot, if_neg (by omega)]

/-- An instance of `release_page_id_spec`: the two-slot pool with both slots reserved. -/
theorem release_page_id_spec_instance :
    page.release_page_id demo_config 2 demo_state_full = some demo_state_full
      ∧ page.release_page_id demo_config (-1) demo_state_full = none :=
  ⟨(release_page_id_spec demo_config demo_state_full 2 (by decide) (by decide)).2.1 (by decide),
   (release_page_id_spec demo_config demo_state_full (-1) (by decide) (by decide)).2.2
     (by decide)⟩

/-- C21, the failing input: the pool of two slots is exhausted, `reserve_page_id` returns
`-1` and leaves the pool as it is; `release_page_id(-1)` passes the guard
`id >= PIX_BUF_COUNT` and reaches the store to `pix_buffer_statics[-1]`, an element that
does not exist.  The ids 0 and 1 clear their own slot only, the ids 2 and 3 leave the
pool unchanged. -/
theorem release_page_id_minus_one :
    demo_state_full.pix_buffer_statics.map (fun s => s.in_use) = [true, true]
      ∧ page.reserve_page_id demo_config demo_state_full = (-1, demo_state_full)
      ∧ page.release_page_id demo_config (-1) demo_state_full = none
      ∧ (page.release_page_id demo_config 0 demo_state_full).map
          (fun w => w.pix_buffer_statics.map (fun s => s.in_use)) = some [false, true]
      ∧ (page.release_page_id demo_config 1 demo_state_full).map
          (fun w => w.pix_buffer_statics.map (fun s => s.in_use)) = some [true, false]
      ∧ page.release_page_id demo_config 2 demo_state_full = some demo_state_full
      ∧ page.release_page_id demo_config 3 demo_state_full = some demo_state_full := by
  decide

/-- C22 as stated fails: two depths of 1024 bits sum to 2048, a non-zero multiple of 8,
and the 8-bit result `2048 / 8 = 256` is 0; the depths 65528 and 8 sum to 65536, which
the 16-bit accumulator holds as 0. -/
theorem calc_byte_per_pixel_zero_counterexample :
    page.calc_byte_per_pixel 2 [1024, 1024] = 0
      ∧ ([1024, 1024] : List Nat).sum = 2048 ∧ 2048 % 8 = 0
      ∧ page.calc_byte_per_pixel 2 [65528, 8] = 0
      ∧ ([65528, 8] : List Nat).sum = 65536 ∧ 65536 % 8 = 0
      ∧ ¬ (page.calc_byte_per_pixel 2 [1024, 1024] = 0
            ↔ (([1024, 1024] : List Nat).sum = 0 ∨ ([1024, 1024] : List Nat).sum % 8 ≠ 0)) := by
  decide

/-- C22, amended: for every `samples_per_pixel` `n` and every list of `n` depths,
`calc_byte_per_pixel` (16-bit accumulator, 8-bit result) returns 0 if and only if the
exact sum of the depths is not a multiple of 8 or is a multiple of 2048; when the exact
sum is below 2048 that is: if and only if the sum is 0 or is not a multiple of 8; and a
non-zero result is the exact sum divided by 8, modulo 256. -/
theorem calc_byte_per_pixel_zero_iff (n : Nat) (depths : List Nat)
    (hn : depths.length = n) :
    (page.calc_byte_per_pixel n depths = 0
        ↔ (depths.sum % 8 ≠ 0 ∨ depths.sum % 2048 = 0))
      ∧ (depths.sum < 2048 →
          (page.calc_byte_per_pixel n depths = 0 ↔ (depths.sum = 0 ∨ depths.sum % 8 ≠ 0)))
      ∧ (page.calc_byte_per_pixel n depths ≠ 0 →
          page.calc_byte_per_pixel n depths = depths.sum / 8 % 256) := by
  have hfold := total_bits_foldl depths 0
  simp only [Nat.zero_mod, Nat.zero_add] at hfold
  have hcalc : page.calc_byte_per_pixel n depths
      = if depths.sum % 65536 % 8 ≠ 0 then 0 else depths.sum % 65536 / 8 % 256 := by
    unfold page.calc_byte_per_pixel
    rw [if_neg (by intro h; exact h.1 hn)]
    simp only [hfold]
  rw [hcalc]
  refine ⟨?_, ?_, ?_⟩
  · split_ifs <;> omega
  · intro hlt
    split_ifs <;> omega
  · split_ifs <;> omega

/-- Witness of C22, amended: three depths of 8 bits give 3, three depths of 5 bits
give 0. -/
theorem calc_byte_per_pixel_zero_iff_witness :
    ([5, 5, 5] : List Nat).length = 3
      ∧ (page.calc_byte_per_pixel 3 [5, 5, 5] = 0
          ↔ (([5, 5, 5] : List Nat).sum % 8 ≠ 0 ∨ ([5, 5, 5] : List Nat).sum % 2048 = 0)) :=
  ⟨by decide, (calc_byte_per_pixel_zero_iff 3 [5, 5, 5] (by decide)).1⟩

end tiff
